import Mathlib

/-!
Shallow embedding of the Layla leasing-agent core (layla_agent.py,
layla_calendar.py, api/index.py) and proofs about it.

The heuristic fact extractor in `extract_information_node` is driven by
Python `re` patterns.  We embed them with a small backtracking regular
expression engine (`RE`, `reMatch`, `reSearch`) whose list of candidate
matches is ordered exactly as Python's backtracking explores them
(greedy repetition: more iterations first; alternation: left first;
`re.search`: leftmost starting position first), so that `head?` of the
candidate list is the match Python returns.  Each Python pattern is
transcribed into an `RE` value next to a comment quoting the original.
-/

namespace Layla

/-- ASCII letter: what the classes [A-Z] and [a-z] match under Python's
re.IGNORECASE in the source's patterns (all inputs are ASCII). -/
def isAlphaC (c : Char) : Bool := ('a' ≤ c && c ≤ 'z') || ('A' ≤ c && c ≤ 'Z')

/-- ASCII digit, Python's regex class \d on ASCII text. -/
def isDigitC (c : Char) : Bool := '0' ≤ c && c ≤ '9'

/-- Python's regex class \s on ASCII text: space, tab, newline, carriage
return, vertical tab, form feed. -/
def isSpaceC (c : Char) : Bool :=
  c == ' ' || c == '\t' || c == '\n' || c == '\x0d' || c == '\x0b' || c == '\x0c'

/-- ASCII lower-casing of one character (Python str.lower() on the ASCII
inputs the source handles). -/
def lowerC (c : Char) : Char :=
  if 'A' ≤ c && c ≤ 'Z' then Char.ofNat (c.toNat + 32) else c

/-- Python's str.lower() on ASCII text. -/
def strLower (s : String) : String := String.mk (s.data.map lowerC)

/-- Python's str.strip(): leading and trailing whitespace removed. -/
def strTrim (s : String) : String :=
  String.mk (((s.data.dropWhile isSpaceC).reverse.dropWhile isSpaceC).reverse)

/-- Regular expressions, shallow syntax for the patterns the source uses.
`alt` prefers its left branch, `star` is greedy, `grp n` records the text
consumed by its body as capture group `n`, `eos` is the anchor $ (end of
input; the source never ends its inputs with a newline, so the
before-final-newline case of Python's $ does not arise). -/
inductive RE where
  | eps : RE
  | cls : (Char → Bool) → RE
  | seq : RE → RE → RE
  | alt : RE → RE → RE
  | star : RE → RE
  | grp : Nat → RE → RE
  | eos : RE

/-- Greedy `r?`. -/
def RE.opt (r : RE) : RE := .alt r .eps

/-- Greedy `r+`. -/
def RE.plus (r : RE) : RE := .seq r (.star r)

/-- Exactly `n` copies of `r` in sequence: the regex `r … r` (n times). -/
def reps : Nat → RE → RE
  | 0, _ => .eps
  | n + 1, r => .seq r (reps n r)

/-- Greedy "at most n more copies of r": nested options, so that the
candidate order is n copies first, then n-1, …, then zero. -/
def upTo : Nat → RE → RE
  | 0, _ => .eps
  | n + 1, r => RE.opt (.seq r (upTo n r))

/-- Greedy counted repetition `r` between `lo` and `lo+extra` times, the
translation of a Python greedy quantifier of that range. -/
def repRange (lo extra : Nat) (r : RE) : RE := .seq (reps lo r) (upTo extra r)

/-- Literal character (case sensitive; used for characters without case). -/
def chC (c : Char) : RE := .cls (fun x => x == c)

/-- Literal character under re.IGNORECASE; `c` is given in lower case. -/
def chI (c : Char) : RE := .cls (fun x => lowerC x == c)

/-- Literal word under re.IGNORECASE; `s` is given in lower case. -/
def litI (s : String) : RE :=
  (s.data.map chI).foldr RE.seq RE.eps

/-- Capture groups recorded by a match, outermost first. -/
abbrev Captures := List (Nat × List Char)

/-- Structure size of a regex, used only to bound the engine's fuel. -/
def reSize : RE → Nat
  | .eps => 1
  | .cls _ => 1
  | .seq a b => reSize a + reSize b + 1
  | .alt a b => reSize a + reSize b + 1
  | .star r => reSize r + 1
  | .grp _ r => reSize r + 1
  | .eos => 1

/-- All candidate matches of `re` at the start of `cs`, as (captures,
remaining input), in Python's backtracking preference order.  A `star`
iteration must consume at least one character (all starred bodies in the
source's patterns do), so the recursion always shortens the input; `f`
is plain fuel making the recursion structural, and `fuelFor` below always
provides enough of it: every recursive call either shrinks the regex or
(for `star`) strictly shrinks the input while restoring the regex, so
recursion depth is at most (|cs|+1) * (reSize re + 1). -/
def reMatch : Nat → RE → List Char → List (Captures × List Char)
  | 0, _, _ => []
  | _ + 1, .eps, cs => [([], cs)]
  | _ + 1, .eos, cs => match cs with | [] => [([], [])] | _ :: _ => []
  | _ + 1, .cls p, cs =>
    match cs with
    | [] => []
    | c :: rest => if p c then [([], rest)] else []
  | f + 1, .seq a b, cs =>
    (reMatch f a cs).flatMap fun gr =>
      (reMatch f b gr.2).map fun gr2 => (gr.1 ++ gr2.1, gr2.2)
  | f + 1, .alt a b, cs => reMatch f a cs ++ reMatch f b cs
  | f + 1, .star r, cs =>
    ((reMatch f r cs).flatMap fun gr =>
      if gr.2.length < cs.length then
        (reMatch f (.star r) gr.2).map fun gr2 => (gr.1 ++ gr2.1, gr2.2)
      else []) ++ [([], cs)]
  | f + 1, .grp n r, cs =>
    (reMatch f r cs).map fun gr =>
      ((n, cs.take (cs.length - gr.2.length)) :: gr.1, gr.2)

/-- Fuel that always suffices for `reMatch re cs` (see `reMatch`). -/
def fuelFor (re : RE) (cs : List Char) : Nat :=
  (cs.length + 1) * (reSize re + 1)

/-- The most preferred match of the pattern anchored at the start of cs,
wrapped as group 0 (so its group 0 is Python's match.group(0)). -/
def matchAt (re : RE) (cs : List Char) : Option Captures :=
  ((reMatch (fuelFor (.grp 0 re) cs) (.grp 0 re) cs).head?).map Prod.fst

/-- Python's re.search: the first (most preferred) match at the leftmost
position where one exists. -/
def reSearch (re : RE) : List Char → Option Captures
  | [] => matchAt re []
  | c :: t =>
    match matchAt re (c :: t) with
    | some g => some g
    | none => reSearch re t

/-- Python's match.group(n): the recorded capture, if the group matched. -/
def getGrp (g : Captures) (n : Nat) : Option String :=
  (g.find? (fun p => p.1 == n)).map (fun p => String.mk p.2)

/-- Whether `needle` is a prefix of `hay` (character lists). -/
def leadsWith : List Char → List Char → Bool
  | [], _ => true
  | _ :: _, [] => false
  | a :: as, b :: bs => a == b && leadsWith as bs

/-- Whether `needle` occurs as a contiguous substring of `hay`: Python's
`needle in hay` on strings. -/
def listHasSub (needle : List Char) : List Char → Bool
  | [] => leadsWith needle []
  | b :: t => leadsWith needle (b :: t) || listHasSub needle t

/-- Python's `needle in hay` for strings. -/
def containsStr (hay needle : String) : Bool := listHasSub needle.data hay.data

/-- Python's int() on a string of ASCII digits. -/
def digitsToNat (s : String) : Nat :=
  s.data.foldl (fun a c => a * 10 + (c.toNat - 48)) 0

/-- Python's "%02d"-style formatting of a number (f-string {n:02d}). -/
def pad2 (n : Nat) : String := if n < 10 then "0" ++ toString n else toString n

/-- Python's nonempty-and-all-digits str.isdigit() on ASCII text. -/
def strIsDigit (s : String) : Bool := !s.data.isEmpty && s.data.all isDigitC

/-- Sequence of a list of regexes (a trailing eps is harmless). -/
def seqL (rs : List RE) : RE := rs.foldr RE.seq RE.eps

/-- Alternation of a nonempty list of regexes, left to right. -/
def altL : List RE → RE
  | [] => RE.eps
  | [r] => r
  | r :: rest => .alt r (altL rest)

/-- The class \d. -/
def dig : RE := .cls isDigitC

/-- The pattern piece [A-Z][a-z]+ under re.IGNORECASE: two or more letters. -/
def wordRE : RE := .seq (.cls isAlphaC) (RE.plus (.cls isAlphaC))

/-- The pattern piece \s+. -/
def spacesP : RE := RE.plus (.cls isSpaceC)

/-- The pattern piece \s*. -/
def spacesS : RE := .star (.cls isSpaceC)

/-- The piece ([A-Z][a-z]+(?:\s+[A-Z][a-z]+)*) capturing a (possibly
multi-word) name as group 1, shared by the comma and name patterns. -/
def nameGroup : RE := .grp 1 (.seq wordRE (.star (.seq spacesP wordRE)))

/-- The piece \d{8,12}. -/
def digits8to12 : RE := repRange 8 4 dig

/-- The piece (?:\s|$). -/
def spaceOrEnd : RE := .alt (.cls isSpaceC) .eos

/-- comma_patterns[0] of extract_information_node:
([A-Z][a-z]+(?:\s+[A-Z][a-z]+)*)\s*,\s*(\d{8,12})(?:\s|$)  (IGNORECASE). -/
def commaRE1 : RE :=
  seqL [nameGroup, spacesS, chC ',', spacesS, .grp 2 digits8to12, spaceOrEnd]

/-- comma_patterns[1]: the same but anchored with $ instead of (?:\s|$). -/
def commaRE2 : RE :=
  seqL [nameGroup, spacesS, chC ',', spacesS, .grp 2 digits8to12, .eos]

/-- The tail (?:\s+and|\s+phone|\s+,\s*phone|$) of the five name patterns. -/
def nameTail : RE :=
  altL [.seq spacesP (litI "and"), .seq spacesP (litI "phone"),
        seqL [spacesP, chC ',', spacesS, litI "phone"], .eos]

/-- name_patterns[0]: my\s+name\s+is\s+(...)(tail)  (IGNORECASE). -/
def nameRE1 : RE :=
  seqL [litI "my", spacesP, litI "name", spacesP, litI "is", spacesP, nameGroup, nameTail]

/-- name_patterns[1]: name\s+is\s+(...)(tail). -/
def nameRE2 : RE :=
  seqL [litI "name", spacesP, litI "is", spacesP, nameGroup, nameTail]

/-- name_patterns[2]: i\x27?m\s+(...)(tail)  (an optional apostrophe). -/
def nameRE3 : RE :=
  seqL [chI 'i', RE.opt (chC '\''), chI 'm', spacesP, nameGroup, nameTail]

/-- name_patterns[3]: i\s+am\s+(...)(tail). -/
def nameRE4 : RE :=
  seqL [chI 'i', spacesP, litI "am", spacesP, nameGroup, nameTail]

/-- name_patterns[4]: call\s+me\s+(...)(tail). -/
def nameRE5 : RE :=
  seqL [litI "call", spacesP, litI "me", spacesP, nameGroup, nameTail]

/-- The name patterns in the order the source tries them. -/
def namePatternList : List RE := [nameRE1, nameRE2, nameRE3, nameRE4, nameRE5]

/-- phone_patterns[0]:
(?:phone|phone number|mobile|number)(?:\s+is|\s+number\s+is)?\s*:?\s*(\d{8,12})(?:\s|$). -/
def phoneRE : RE :=
  seqL [altL [litI "phone", litI "phone number", litI "mobile", litI "number"],
        RE.opt (.alt (.seq spacesP (litI "is"))
                     (seqL [spacesP, litI "number", spacesP, litI "is"])),
        spacesS, RE.opt (chC ':'), spacesS, .grp 1 digits8to12, spaceOrEnd]

/-- date_patterns[0]: (?:tomorrow|today)(?:\s+works|\s+at|\s+\d|$). -/
def dateREa : RE :=
  .seq (.alt (litI "tomorrow") (litI "today"))
       (altL [.seq spacesP (litI "works"), .seq spacesP (litI "at"),
              .seq spacesP dig, .eos])

/-- The month alternation of date_patterns[1], in the source's order. -/
def monthsAlt : RE :=
  altL [litI "nov", litI "november", litI "dec", litI "december",
        litI "jan", litI "january", litI "feb", litI "february",
        litI "mar", litI "march", litI "apr", litI "april",
        litI "may", litI "jun", litI "june", litI "jul", litI "july",
        litI "aug", litI "august", litI "sep", litI "september",
        litI "oct", litI "october"]

/-- date_patterns[1]: (months)\s+(\d{1,2})(?:st|nd|rd|th)?. -/
def dateREb : RE :=
  seqL [monthsAlt, spacesP, .grp 1 (repRange 1 1 dig),
        RE.opt (altL [litI "st", litI "nd", litI "rd", litI "th"])]

/-- date_patterns[2]: (\d{4}-\d{2}-\d{2}). -/
def dateREc : RE :=
  .grp 1 (seqL [reps 4 dig, chC '-', reps 2 dig, chC '-', reps 2 dig])

/-- time_patterns[0]:
(\d{1,2}):?(\d{2})?\s*(am|pm)(?:\s+tomorrow|\s+today|\s+works|$). -/
def timeREa : RE :=
  seqL [.grp 1 (repRange 1 1 dig), RE.opt (chC ':'), RE.opt (.grp 2 (reps 2 dig)),
        spacesS, .grp 3 (.alt (litI "am") (litI "pm")),
        altL [.seq spacesP (litI "tomorrow"), .seq spacesP (litI "today"),
              .seq spacesP (litI "works"), .eos]]

/-- time_patterns[1]: (\d{1,2}):?(\d{2})?\s*(am|pm). -/
def timeREb : RE :=
  seqL [.grp 1 (repRange 1 1 dig), RE.opt (chC ':'), RE.opt (.grp 2 (reps 2 dig)),
        spacesS, .grp 3 (.alt (litI "am") (litI "pm"))]

/-- time_patterns[2]: (\d{1,2}):(\d{2}). -/
def timeREc : RE :=
  seqL [.grp 1 (repRange 1 1 dig), chC ':', .grp 2 (reps 2 dig)]

/-- time_patterns[3]: (\d{1,2})\s*(am|pm). -/
def timeREd : RE :=
  seqL [.grp 1 (repRange 1 1 dig), spacesS, .grp 2 (.alt (litI "am") (litI "pm"))]

/-- The time-extraction trigger \d{1,2}\s*(am|pm). -/
def timeTrig1 : RE := seqL [repRange 1 1 dig, spacesS, .alt (litI "am") (litI "pm")]

/-- The time-extraction trigger \d{1,2}:\d{2}. -/
def timeTrig2 : RE := seqL [repRange 1 1 dig, chC ':', reps 2 dig]

/-- The wall clock the source reads through datetime.now(): the current
year and month, the ISO date of the day `n` days from today (dayStr 0 is
today.strftime of %Y-%m-%d, dayStr 1 tomorrow's), and now().isoformat(). -/
structure Clock where
  year : Nat
  month : Nat
  dayStr : Nat → String
  nowIso : String

/-- The filler words the extractor refuses as names and treats as
overwritable when already stored. -/
def fillerNames : List String := ["yes", "no", "yep", "nope"]

/-- The full month names whose presence in the lowercased text re-triggers
date extraction, in the source's order. -/
def monthNames : List String :=
  ["november", "december", "january", "february", "march", "april", "may",
   "june", "july", "august", "september", "october"]

/-- Whether the lowercased text contains any full month name (the date
re-extraction trigger of extract_information_node). -/
def monthTrigger (lower : String) : Bool :=
  monthNames.any (fun m => containsStr lower m)

/-- month_map of extract_information_node. -/
def monthMap : List (String × Nat) :=
  [("jan", 1), ("feb", 2), ("mar", 3), ("apr", 4), ("may", 5), ("jun", 6),
   ("jul", 7), ("aug", 8), ("sep", 9), ("oct", 10), ("nov", 11), ("dec", 12)]

/-- month_map.get(name, datetime.now().month). -/
def monthOf (c : Clock) (tok : String) : Nat :=
  ((monthMap.find? (fun p => p.1 == tok)).map Prod.snd).getD c.month

/-- Python's group(0).lower().split()[0][:3]: the first three characters
of the first whitespace-separated token of the lowercased match. -/
def monthToken (g0 : String) : String :=
  String.mk ((((strLower g0).data.dropWhile isSpaceC).takeWhile
    (fun ch => !isSpaceC ch)).take 3)

/-- The f-string f"{year}-{month:02d}-{day:02d}" of the month-name date
branch (grouped to the right so the tail is a closed string). -/
def formatDate (y m d : Nat) : String :=
  toString y ++ ("-" ++ (pad2 m ++ ("-" ++ pad2 d)))

/-- The f-string f"{hour:02d}:{minute:02d}" of time extraction. -/
def formatTime (h m : Nat) : String := pad2 h ++ (":" ++ pad2 m)

/-- One comma-pattern attempt: search, then the validity filter
(len(name_clean) >= 2, not isdigit, not a filler word).  Returns the
(name_clean, phone) pair when the pattern matches and the name is valid;
an invalid match falls through to the next pattern, exactly as the
source's loop (which breaks only inside the validity test) does. -/
def tryCommaPattern (re : RE) (text : String) : Option (String × String) :=
  match reSearch re text.data with
  | none => none
  | some g =>
    let nc := strTrim ((getGrp g 1).getD "")
    let ph := strTrim ((getGrp g 2).getD "")
    if 2 ≤ nc.length && !strIsDigit nc && !fillerNames.contains (strLower nc) then
      some (nc, ph)
    else none

/-- The comma-pattern loop over comma_patterns, first valid match wins. -/
def commaResolved (text : String) : Option (String × String) :=
  (tryCommaPattern commaRE1 text).orElse (fun _ => tryCommaPattern commaRE2 text)

/-- The name-pattern loop: group(1).strip() of the first pattern that
matches.  (The source's standalone-name special case compares the pattern
to one not in the list, so its else branch always runs.) -/
def nameResolved (text : String) : Option String :=
  namePatternList.findSome? fun re =>
    (reSearch re text.data).map (fun g => strTrim ((getGrp g 1).getD ""))

/-- The phone-pattern match: group(1).strip() when phone_patterns[0]
matches the lowercased text. -/
def phoneResolved (lower : String) : Option String :=
  (reSearch phoneRE lower.data).map (fun g => strTrim ((getGrp g 1).getD ""))

/-- The date-pattern loop on the lowercased text: the first of the three
patterns that matches decides the date.  Pattern[0] has no group, so the
source reads "tomorrow" from group(0); pattern[1]'s group is 1-2 digits,
so the source's ISO re.match test on it always fails and the month-name
parse runs; pattern[2]'s group is already ISO and is returned as is. -/
def dateResolved (c : Clock) (lower : String) : Option String :=
  match reSearch dateREa lower.data with
  | some g =>
    let g0 := strLower ((getGrp g 0).getD "")
    some (if containsStr g0 "tomorrow" then c.dayStr 1 else c.dayStr 0)
  | none =>
    match reSearch dateREb lower.data with
    | some g =>
      let mon := monthOf c (monthToken ((getGrp g 0).getD ""))
      let day := digitsToNat ((getGrp g 1).getD "")
      some (formatDate c.year mon day)
    | none =>
      match reSearch dateREc lower.data with
      | some g => some ((getGrp g 1).getD "")
      | none => none

/-- The 12-hour to 24-hour adjustment of time extraction. -/
def ampmAdjust (h : Nat) (ap : Option String) : Nat :=
  match ap with
  | some s =>
    if strLower s == "pm" && !(h == 12) then h + 12
    else if strLower s == "am" && h == 12 then 0
    else h
  | none => h

/-- Reads (hour, minute, am_pm) out of a time-pattern match, with the
pattern's own group numbering, and renders f"{hour:02d}:{minute:02d}". -/
def timeFromMatch (g : Captures) (hg : Nat) (mg : Option Nat) (ag : Option Nat) : String :=
  let hour := digitsToNat ((getGrp g hg).getD "")
  let minute := match mg with
    | none => 0
    | some n => match getGrp g n with
      | some s => digitsToNat s
      | none => 0
  let ap := ag.bind (fun n => getGrp g n)
  formatTime (ampmAdjust hour ap) minute

/-- The time-pattern loop on the lowercased text, first match wins, with
each pattern's (hour, minute, am_pm) group tuple from the source. -/
def timeResolved (lower : String) : Option String :=
  match reSearch timeREa lower.data with
  | some g => some (timeFromMatch g 1 (some 2) (some 3))
  | none =>
    match reSearch timeREb lower.data with
    | some g => some (timeFromMatch g 1 (some 2) (some 3))
    | none =>
      match reSearch timeREc lower.data with
      | some g => some (timeFromMatch g 1 (some 2) none)
      | none =>
        match reSearch timeREd lower.data with
        | some g => some (timeFromMatch g 1 none (some 2))
        | none => none

/-- lead_info of LaylaState; a missing or None field is the empty string
(the source only ever tests these fields for truthiness, membership and
length, so None and "" are interchangeable there). -/
structure LeadInfo where
  name : String
  phone : String
  email : String
deriving DecidableEq

/-- tour_details of LaylaState, same convention. -/
structure TourDetails where
  property_id : String
  date : String
  time : String
deriving DecidableEq

/-- The fact set extract_information_node reads and writes. -/
structure FactSet where
  lead_info : LeadInfo
  tour_details : TourDetails
deriving DecidableEq

/-- The empty fact set of a fresh conversation. -/
def emptyFacts : FactSet := ⟨⟨"", "", ""⟩, ⟨"", "", ""⟩⟩

/-- The lead_info update of extract_information_node: the comma-separated
name+phone patterns first; then the explicit name phrases, only when
neither the update nor the current state holds a name; then the explicit
phone phrase, only when neither holds a phone, with the length-8 and
rocky_-prefix guards. -/
def leadStep (cur : LeadInfo) (textOrig lower : String) : LeadInfo :=
  let afterComma : LeadInfo :=
    match commaResolved textOrig with
    | none => cur
    | some (nc, ph) =>
      { cur with
        name := if cur.name = "" ∨ fillerNames.contains cur.name then nc else cur.name
        phone := if cur.phone = "" ∨ cur.phone.length < 8 then ph else cur.phone }
  let afterName : LeadInfo :=
    if afterComma.name = "" ∧ cur.name = "" then
      match nameResolved textOrig with
      | some nm => { afterComma with name := nm }
      | none => afterComma
    else afterComma
  if afterName.phone = "" ∧ cur.phone = "" then
    match phoneResolved lower with
    | some ph =>
      if 8 ≤ ph.length && !leadsWith "rocky_".data ph.data then
        { afterName with phone := ph }
      else afterName
    | none => afterName
  else afterName

/-- The date update: extraction re-runs when no date is known or the text
mentions a month name; the first matching date pattern wins, an
unmatched run keeps the current date. -/
def dateUpd (c : Clock) (d : String) (lower : String) : String :=
  if d = "" ∨ monthTrigger lower then
    match dateResolved c lower with
    | some v => v
    | none => d
  else d

/-- The time update: extraction re-runs when no time is known or the text
has an hour-am/pm or colon time pattern. -/
def timeUpd (t : String) (lower : String) : String :=
  if t = "" ∨ (reSearch timeTrig1 lower.data).isSome
      ∨ (reSearch timeTrig2 lower.data).isSome then
    match timeResolved lower with
    | some v => v
    | none => t
  else t

/-- tour_details.property_id copied from the selected property when the
update holds none. -/
def propStep (sel : String) (td : TourDetails) : TourDetails :=
  if ¬ sel = "" ∧ td.property_id = "" then { td with property_id := sel } else td

/-- extract_information_node's work on the latest message text:
comma-separated name+phone first, then the explicit name phrases (only
when no name is known), the explicit phone phrases (only when no phone is
known), date (re-run when a month name occurs), time (re-run on an
hour/am-pm or colon pattern), and finally tour_details.property_id copied
from the selected property (`sel`; "" models no selection).  The date and
time conditions read the incoming tour_details, as the source's
current_tour_details checks do. -/
def extractFacts (c : Clock) (sel : String) (fs : FactSet) (textOrig : String) : FactSet :=
  let lower := strLower textOrig
  { lead_info := leadStep fs.lead_info textOrig lower,
    tour_details := propStep sel
      { fs.tour_details with
        date := dateUpd c fs.tour_details.date lower,
        time := timeUpd fs.tour_details.time lower } }

/-- extract_information_node including its no-last-message guard: with no
message text the existing fact set is returned unchanged. -/
def extractInformationNode (c : Clock) (sel : String) (fs : FactSet)
    (text : Option String) : FactSet :=
  match text with
  | none => fs
  | some t => extractFacts c sel fs t

/-! ## The Calendar/Booking Store (layla_calendar.py) -/

/-- One entry of a property's available_slots list. -/
structure Slot where
  date : String
  time : String
  available : Bool
deriving DecidableEq

/-- One entry of a property's booked_slots list. -/
structure Booking where
  date : String
  time : String
  customer_name : String
  customer_phone : String
  booked_at : String
deriving DecidableEq

/-- The per-property value of DUMMY_CALENDAR. -/
structure PropCalendar where
  available_slots : List Slot
  booked_slots : List Booking
deriving DecidableEq

/-- DUMMY_CALENDAR, the process-wide store, as an association list (the
dict's iteration order plays no role in the source). -/
abbrev Calendar := List (String × PropCalendar)

/-- Dict lookup DUMMY_CALENDAR.get(property_id). -/
def calLookup (cal : Calendar) (pid : String) : Option PropCalendar :=
  (cal.find? (fun p => p.1 == pid)).map Prod.snd

/-- Replacing the value stored under an existing key (the source mutates
the dict's value object in place). -/
def calSet (cal : Calendar) (pid : String) (v : PropCalendar) : Calendar :=
  cal.map (fun p => if p.1 == pid then (p.1, v) else p)

/-- The slots initialize_calendar_for_property generates: for each of the
7 days from today, the hours 10, 14 and 16, each rendered
f"{hour:02d}:00", all available. -/
def defaultSlots (c : Clock) : List Slot :=
  (List.range 7).flatMap fun d =>
    [10, 14, 16].map fun h => ⟨c.dayStr d, pad2 h ++ ":00", true⟩

/-- The calendar a property gets on first reference. -/
def freshCalendar (c : Clock) : PropCalendar := ⟨defaultSlots c, []⟩

/-- initialize_calendar_for_property: a no-op when the property is already
in the store, otherwise the fresh calendar is added. -/
def initCalendarForProperty (c : Clock) (cal : Calendar) (pid : String) : Calendar :=
  if (calLookup cal pid).isSome then cal else cal ++ [(pid, freshCalendar c)]

/-- The (date, time) pairs offered by a freshly generated calendar. -/
def offeredPairs (c : Clock) : List (String × String) :=
  (defaultSlots c).map fun s => (s.date, s.time)

/-- Outcome of book_slot's search loop over available_slots. -/
inductive FoundSlot where
  | booked (slots : List Slot)
  | alreadyBooked
  | notFound
deriving DecidableEq

/-- book_slot's loop: the first slot matching (date, time) decides; if it
is unavailable the call fails, otherwise exactly that slot's available
flag is set to False and the loop breaks. -/
def findAndBook (d t : String) : List Slot → FoundSlot
  | [] => .notFound
  | s :: rest =>
    if s.date == d && s.time == t then
      if !s.available then .alreadyBooked
      else .booked ({ s with available := false } :: rest)
    else
      match findAndBook d t rest with
      | .booked r => .booked (s :: r)
      | o => o

/-- f"\x7bproperty_id\x7d_\x7bdate\x7d_\x7btime\x7d".replace("-", "_")
.replace(":", "_"): the two replaces compose into one character map. -/
def mkConfirmationId (pid d t : String) : String :=
  String.mk ((pid ++ "_" ++ d ++ "_" ++ t).data.map
    fun ch => if ch == '-' || ch == ':' then '_' else ch)

/-- book_slot's returned dict: success with its echoed fields and
confirmation_id, or failure with its error string. -/
inductive BookResult where
  | ok (property_id date time customer_name customer_phone confirmation_id : String)
  | err (error : String)
deriving DecidableEq

/-- book_slot of layla_calendar.py.  Initializes the property's calendar
if absent, then runs the search loop; on success the slot is flipped, a
Booking (with booked_at = now().isoformat()) is appended, and the
deterministic confirmation id is returned. -/
def book_slot (c : Clock) (cal : Calendar) (pid d t name phone : String) :
    Calendar × BookResult :=
  let cal1 := initCalendarForProperty c cal pid
  match calLookup cal1 pid with
  | none => (cal1, .err "Slot not found")
  | some pc =>
    match findAndBook d t pc.available_slots with
    | .alreadyBooked => (cal1, .err "Slot is already booked")
    | .notFound => (cal1, .err "Slot not found")
    | .booked slots2 =>
      (calSet cal1 pid ⟨slots2, pc.booked_slots ++ [⟨d, t, name, phone, c.nowIso⟩]⟩,
       .ok pid d t name phone (mkConfirmationId pid d t))

/-! ## Messages, tool calls and the smart-booking validator
(custom_tool_node of layla_agent.py) -/

/-- An ActionCall of the decision collaborator. -/
structure ToolCall where
  name : String
  id : String
  args : List (String × String)
deriving DecidableEq

/-- The message log's entries: HumanMessage, AIMessage (with tool calls),
ToolMessage. -/
inductive Msg where
  | human (content : String)
  | ai (content : String) (tool_calls : List ToolCall)
  | toolMsg (content : String) (tool_call_id : String)
deriving DecidableEq

/-- The content attribute every message kind carries. -/
def Msg.content : Msg → String
  | .human c => c
  | .ai c _ => c
  | .toolMsg c _ => c

/-- LaylaState.  selected_property is its property_id ("" models None /
no selection, the only field of it the source reads); search_results is
kept only to state frame facts. -/
structure ConvState where
  messages : List Msg
  selected_property : String
  search_results : List String
  lead_info : LeadInfo
  workflow_stage : String
  tour_details : TourDetails
deriving DecidableEq

/-- placeholder_names of custom_tool_node. -/
def placeholderNames : List String :=
  ["layla", "customer", "user", "test", "demo", "example", "placeholder"]

/-- placeholder_phones of custom_tool_node. -/
def placeholderPhones : List String :=
  ["1234567890", "0000000000", "1111111111", "123456789", "00000000"]

/-- The validator's missing list, built in the source's order: property
selection (tour_details.property_id or the selected property), date,
time, name, phone, then the placeholder checks on populated name/phone. -/
def computeMissing (li : LeadInfo) (td : TourDetails) (sel : String) : List String :=
  let property_id := if td.property_id = "" then sel else td.property_id
  (if property_id = "" then ["property selection"] else []) ++
  (if td.date = "" then ["tour date"] else []) ++
  (if td.time = "" then ["tour time"] else []) ++
  (if li.name = "" then ["your name"] else []) ++
  (if li.phone = "" then ["your phone number"] else []) ++
  (if ¬ li.name = "" ∧ placeholderNames.contains (strLower li.name) then
    ["your actual name (not a placeholder)"] else []) ++
  (if ¬ li.phone = "" ∧ placeholderPhones.contains li.phone then
    ["your actual phone number (not a placeholder)"] else [])

/-- The ToolMessage text listing missing requirements. -/
def missingMessage (missing : List String) : String :=
  "I need the following information to book your tour: " ++
    String.intercalate ", " missing ++ ". Please provide this information."

/-- The ToolMessage text of a confirmed booking (the source's f-string,
newlines included). -/
def bookedMessage (cid pid d t name phone : String) : String :=
  "\nTour booking confirmed!\n\nConfirmation ID: " ++ cid ++
  "\nProperty ID: " ++ pid ++ "\nDate: " ++ d ++ "\nTime: " ++ t ++
  "\nCustomer: " ++ name ++ "\nPhone: " ++ phone ++
  "\n\nWe'll send you a reminder 1 hour before your tour.\n"

/-- The smart-booking branch of custom_tool_node: compute the missing
list; if nonempty answer with the missing message and touch no store;
otherwise call book_slot and report its outcome. -/
def smartBookingStep (c : Clock) (cal : Calendar) (li : LeadInfo) (td : TourDetails)
    (sel : String) (tool_call_id : String) : Calendar × Msg :=
  let missing := computeMissing li td sel
  if ¬ missing = [] then (cal, .toolMsg (missingMessage missing) tool_call_id)
  else
    let property_id := if td.property_id = "" then sel else td.property_id
    match book_slot c cal property_id td.date td.time li.name li.phone with
    | (cal2, .ok _ _ _ _ _ cid) =>
      (cal2, .toolMsg (bookedMessage cid property_id td.date td.time li.name li.phone)
        tool_call_id)
    | (cal2, .err e) => (cal2, .toolMsg ("Booking failed: " ++ e) tool_call_id)

/-- The external collaborators of a turn: the decision LLM (whose failure
is an Except.error carrying str(e)) and the library ToolNode's handler
for the standard tools, which produces each call's observation text. -/
structure Collaborators where
  llm : List Msg → Except String (String × List ToolCall)
  stdTool : ToolCall → String

/-- The library ToolNode on a batch: one ToolMessage per call. -/
def stdToolBatch (io : Collaborators) (tcs : List ToolCall) : List Msg :=
  tcs.map fun tc => .toolMsg (io.stdTool tc) tc.id

/-- custom_tool_node: if the last message's tool calls include
book_tour_smart_tool, only the first such call is answered (by the
validator); otherwise the whole batch goes to the standard ToolNode.
With no last message or no tool calls the standard node gets an empty
batch (the source would hit the library's runtime error there; no claim
exercises it). -/
def customToolNode (io : Collaborators) (c : Clock) (cal : Calendar) (st : ConvState) :
    Calendar × List Msg :=
  let lastTCs : List ToolCall :=
    match st.messages.getLast? with
    | some (.ai _ tcs) => tcs
    | _ => []
  match lastTCs.find? (fun tc => tc.name == "book_tour_smart_tool") with
  | some tc =>
    let r := smartBookingStep c cal st.lead_info st.tour_details st.selected_property tc.id
    (r.1, [r.2])
  | none => (cal, stdToolBatch io lastTCs)

/-! ## The agent node, graph and API boundary (layla_agent.py Step 4-7,
api/index.py) -/

/-- The constant part of get_system_prompt. -/
def basePrompt : String :=
  "You are Layla, a friendly and professional leasing agent for Rocky Real Estate in Dubai.\n\nYour role:\n- Help customers find properties that match their needs\n- Answer questions about properties, pricing, amenities, and availability\n- Book property tours when customers are ready\n- Sync lead information to CRM when appropriate\n\nGuidelines:\n- Be warm, helpful, and professional\n- When users say \"the first one\" or \"that property\", refer to the most recent search results or selected property\n- Always confirm tour details before booking\n- Use the search_properties_tool for property searches - decide on score_threshold based on query specificity:\n  * Lower threshold (0.25-0.3) for exploratory queries like \"properties with gym\"\n  * Higher threshold (0.4-0.5) for specific queries with exact criteria\n- Use structured filters (bedrooms, price) when the user specifies exact criteria\n- For fuzzy queries (amenities, location), rely on semantic search\n\nUsing State Information:\n- Check the \"Current State\" section below to see what information you already have\n- When the user wants to book a tour, call book_tour_smart_tool() - it will automatically check what's needed\n- Only ask for information that is MISSING from state\n\nRemember: You maintain conversation context, so you can reference previous messages and search results."

/-- get_system_prompt: the base prompt plus one line per known fact. -/
def getSystemPrompt (st : ConvState) : String :=
  let info :=
    (if ¬ st.lead_info.name = "" then ["- Customer name: " ++ st.lead_info.name] else []) ++
    (if ¬ st.lead_info.phone = "" then ["- Customer phone: " ++ st.lead_info.phone] else []) ++
    (if ¬ st.lead_info.email = "" then ["- Customer email: " ++ st.lead_info.email] else []) ++
    (if ¬ st.tour_details.date = "" then ["- Tour date: " ++ st.tour_details.date] else []) ++
    (if ¬ st.tour_details.time = "" then ["- Tour time: " ++ st.tour_details.time] else []) ++
    (if ¬ st.tour_details.property_id = "" then
      ["- Property ID: " ++ st.tour_details.property_id] else []) ++
    (if ¬ st.selected_property = "" then
      ["- Selected property: " ++ st.selected_property] else [])
  if info = [] then basePrompt
  else basePrompt ++ "\n\nCurrent State (Remembered Information):\n" ++
    String.intercalate "\n" info

/-- The system-prompt handling at the top of layla_agent_node, as the pair
(list the LLM is invoked on, the state's message list after the step's
in-place effect).  When no message mentions "Layla" the system prompt is
prepended to a fresh local list (the state log is untouched); otherwise,
if the first message is a HumanMessage containing "Layla", that first
entry is overwritten in place with the re-rendered system prompt. -/
def agentLogViews (sys : String) (log : List Msg) : List Msg × List Msg :=
  if ¬ log.any (fun m => ¬ m.content = "" ∧ containsStr m.content "Layla") then
    (Msg.human sys :: log, log)
  else
    match log with
    | Msg.human c :: rest =>
      if containsStr c "Layla" then (Msg.human sys :: rest, Msg.human sys :: rest)
      else (log, log)
    | _ => (log, log)

/-- layla_agent_node: render the system prompt, invoke the LLM (an error
propagates as an exception), append its response via the add_messages
reducer, preserve the remaining state and update workflow_stage and the
selected property from the response's tool calls. -/
def laylaAgentNode (io : Collaborators) (st : ConvState) : Except String ConvState := do
  let sys := getSystemPrompt st
  let views := agentLogViews sys st.messages
  let (content, tcs) ← io.llm views.1
  let names := tcs.map fun tc => tc.name
  let stage1 := if names.contains "search_properties_tool" then "searching"
    else st.workflow_stage
  let stage2 := if names.contains "get_property_details_tool" then "viewing" else stage1
  let sel2 := tcs.foldl (fun (acc : String × String) tc =>
    if tc.name == "get_property_details_tool" then
      match (tc.args.find? (fun a => a.1 == "property_id")).map Prod.snd with
      | some pid => if ¬ pid = "" then (pid, pid) else acc
      | none => acc
    else acc) (st.selected_property, st.tour_details.property_id)
  let stage3 := if names.contains "book_tour_smart_tool" ∨ names.contains "get_tour_slots_tool"
    then "booking" else stage2
  pure { st with
    messages := views.2 ++ [Msg.ai content tcs],
    selected_property := sel2.1,
    tour_details := { st.tour_details with property_id := sel2.2 },
    workflow_stage := stage3 }

/-- The compiled graph's run on one user turn: extract, then agent, then
(when the decision requests tools) dispatch and loop back to extract.
`fuel` models LangGraph's recursion limit (default 25); exhausting it is
the library's GraphRecursionError.  The booking store (DUMMY_CALENDAR) is
threaded through because tool dispatch mutates it even when a later step
fails. -/
def runGraph (io : Collaborators) (c : Clock) :
    Nat → Calendar → ConvState → Calendar × Except String ConvState
  | 0, cal, _ => (cal, .error "Recursion limit reached")
  | fuel + 1, cal, st =>
    let fs := extractInformationNode c st.selected_property
      ⟨st.lead_info, st.tour_details⟩ ((st.messages.getLast?).map Msg.content)
    let st1 := { st with lead_info := fs.lead_info, tour_details := fs.tour_details }
    match laylaAgentNode io st1 with
    | .error e => (cal, .error e)
    | .ok st2 =>
      match st2.messages.getLast? with
      | some (.ai _ tcs) =>
        if ¬ tcs = [] then
          let r := customToolNode io c cal st2
          runGraph io c fuel r.1 { st2 with messages := st2.messages ++ r.2 }
        else (cal, .ok st2)
      | _ => (cal, .ok st2)

/-- The empty first-turn state run_layla builds when none is passed. -/
def initialState : ConvState := ⟨[], "", [], ⟨"", "", ""⟩, "searching", ⟨"", "", ""⟩⟩

/-- run_layla: append the user message to the (possibly fresh) state and
stream the graph; an exception from any node propagates to the caller. -/
def runLayla (io : Collaborators) (c : Clock) (cal : Calendar) (userInput : String)
    (st : Option ConvState) : Calendar × Except String ConvState :=
  let st0 := st.getD initialState
  runGraph io c 25 cal { st0 with messages := st0.messages ++ [Msg.human userInput] }

/-- The /api/chat response: a ChatResponse, or the HTTPException the
endpoint's blanket except turns any exception into. -/
inductive ChatResult where
  | ok (response : String) (state : ConvState)
  | httpError (status : Nat) (detail : String)
deriving DecidableEq

/-- The chat endpoint of api/index.py: run the agent; on success answer
with the last message's content and the new state; any exception becomes
HTTPException(500, "Error: " + str(e)) with no state in the response. -/
def chat (io : Collaborators) (c : Clock) (cal : Calendar) (message : String)
    (st : Option ConvState) : Calendar × ChatResult :=
  match runLayla io c cal message st with
  | (cal2, .ok st2) =>
    match st2.messages.getLast? with
    | some m => (cal2, .ok m.content st2)
    | none => (cal2, .httpError 500 "Error: list index out of range")
  | (cal2, .error e) => (cal2, .httpError 500 ("Error: " ++ e))

/-! ## Auxiliary definitions used by the verification -/

/-- The first slot of a list matching a (date, time) pair: the slot
book_slot's loop decides on. -/
def firstSlot (d t : String) : List Slot → Option Slot
  | [] => none
  | s :: rest => if s.date == d && s.time == t then some s else firstSlot d t rest

/-- The slot (pid, d, t) is irrevocably taken: the store's entry for pid
exists and its loop-relevant slot for (d, t) is unavailable. -/
def IsBookedAt (pid d t : String) (cal : Calendar) : Prop :=
  ∃ pc, calLookup cal pid = some pc ∧
    ∃ s, firstSlot d t pc.available_slots = some s ∧ s.available = false

/-- Arguments of one book_slot call, for stating facts about sequences of
calls against the shared store. -/
structure BookArgs where
  pid : String
  date : String
  time : String
  name : String
  phone : String

/-- The store after a sequence of book_slot calls. -/
def applyCalls (c : Clock) : Calendar → List BookArgs → Calendar
  | cal, [] => cal
  | cal, a :: rest => applyCalls c (book_slot c cal a.pid a.date a.time a.name a.phone).1 rest

/-- Shortest length any match of a regex consumes. -/
def minLen : RE → Nat
  | .eps => 0
  | .cls _ => 1
  | .seq a b => minLen a + minLen b
  | .alt a b => min (minLen a) (minLen b)
  | .star _ => 0
  | .grp _ r => minLen r
  | .eos => 0

/-- Minimum of two optional bounds; none marks no occurrence. -/
def combineMin : Option Nat → Option Nat → Option Nat
  | none, b => b
  | some a, none => some a
  | some a, some b => some (min a b)

/-- Syntactic lower bound on the length of any capture of group n. -/
def groupLB : RE → Nat → Option Nat
  | .eps, _ => none
  | .eos, _ => none
  | .cls _, _ => none
  | .seq a b, n => combineMin (groupLB a n) (groupLB b n)
  | .alt a b, n => combineMin (groupLB a n) (groupLB b n)
  | .star r, n => groupLB r n
  | .grp m r, n =>
    if m = n then combineMin (some (minLen r)) (groupLB r n) else groupLB r n

/-- Every character class of the regex implies the predicate p. -/
def clsWithin : RE → (Char → Bool) → Prop
  | .eps, _ => True
  | .eos, _ => True
  | .cls q, p => ∀ ch, q ch = true → p ch = true
  | .seq a b, p => clsWithin a p ∧ clsWithin b p
  | .alt a b, p => clsWithin a p ∧ clsWithin b p
  | .star r, p => clsWithin r p
  | .grp _ r, p => clsWithin r p

/-- Every occurrence of group n has a body whose classes all imply p. -/
def groupCls : RE → Nat → (Char → Bool) → Prop
  | .eps, _, _ => True
  | .eos, _, _ => True
  | .cls _, _, _ => True
  | .seq a b, n, p => groupCls a n p ∧ groupCls b n p
  | .alt a b, n, p => groupCls a n p ∧ groupCls b n p
  | .star r, n, p => groupCls r n p
  | .grp m r, n, p => (m = n → clsWithin r p) ∧ groupCls r n p

/-- Group n is recorded on every successful path of the regex. -/
def mustGrp : RE → Nat → Prop
  | .eps, _ => False
  | .eos, _ => False
  | .cls _, _ => False
  | .seq a b, n => mustGrp a n ∨ mustGrp b n
  | .alt a b, n => mustGrp a n ∧ mustGrp b n
  | .star _, _ => False
  | .grp m r, n => m = n ∨ mustGrp r n

/-! ## C2: the booking gate on a date-and-time-only state -/

/-- C2: with tour_details.date and tour_details.time set but no property
selected and no name and no phone in lead_info, the smart-booking
validator computes exactly the missing list [property selection, your
name, your phone number] in that priority order, answers with the
missing-requirements observation, and leaves the Booking Store untouched
(book_slot is never reached). -/
theorem C2_booking_gate (c : Clock) (cal : Calendar) (li : LeadInfo) (td : TourDetails)
    (tid : String) (hd : ¬ td.date = "") (ht : ¬ td.time = "")
    (hp : td.property_id = "") (hn : li.name = "") (hph : li.phone = "") :
    computeMissing li td "" = ["property selection", "your name", "your phone number"] ∧
    smartBookingStep c cal li td "" tid =
      (cal, .toolMsg
        (missingMessage ["property selection", "your name", "your phone number"]) tid) := by
  have hm : computeMissing li td "" =
      ["property selection", "your name", "your phone number"] := by
    simp [computeMissing, hd, ht, hp, hn, hph]
  refine ⟨hm, ?_⟩
  simp [smartBookingStep, hm]

/-- Witness for C2 at a concrete state. -/
theorem C2_booking_gate_witness :
    computeMissing ⟨"", "", ""⟩ ⟨"", "2024-11-06", "10:00"⟩ "" =
      ["property selection", "your name", "your phone number"] ∧
    smartBookingStep ⟨2024, 11, fun _ => "2024-11-06", "iso"⟩ [] ⟨"", "", ""⟩
        ⟨"", "2024-11-06", "10:00"⟩ "" "tc1" =
      ([], .toolMsg
        (missingMessage ["property selection", "your name", "your phone number"]) "tc1") :=
  C2_booking_gate ⟨2024, 11, fun _ => "2024-11-06", "iso"⟩ [] ⟨"", "", ""⟩
    ⟨"", "2024-11-06", "10:00"⟩ "tc1" (by decide) (by decide) (by decide)
    (by decide) (by decide)

/-! ## C3: placeholder rejection -/

/-- C3: when all five booking requirements are populated but the name is
"test" in any letter case or the phone is "0000000000", the validator
flags the placeholder in a nonempty missing list, answers with the
missing-requirements observation, and never calls the Booking Store. -/
theorem C3_placeholder_rejection (c : Clock) (cal : Calendar) (li : LeadInfo)
    (td : TourDetails) (sel tid : String)
    (hprop : ¬ (if td.property_id = "" then sel else td.property_id) = "")
    (hd : ¬ td.date = "") (ht : ¬ td.time = "")
    (hn : ¬ li.name = "") (hph : ¬ li.phone = "")
    (hplace : (strLower li.name) = "test" ∨ li.phone = "0000000000") :
    ¬ computeMissing li td sel = [] ∧
    ((strLower li.name) = "test" →
      "your actual name (not a placeholder)" ∈ computeMissing li td sel) ∧
    (li.phone = "0000000000" →
      "your actual phone number (not a placeholder)" ∈ computeMissing li td sel) ∧
    smartBookingStep c cal li td sel tid =
      (cal, .toolMsg (missingMessage (computeMissing li td sel)) tid) := by
  have hshape : computeMissing li td sel =
      (if ¬ li.name = "" ∧ placeholderNames.contains (strLower li.name) then
        ["your actual name (not a placeholder)"] else []) ++
      (if ¬ li.phone = "" ∧ placeholderPhones.contains li.phone then
        ["your actual phone number (not a placeholder)"] else []) := by
    simp [computeMissing, hd, ht, hn, hph, hprop]
  have hne : ¬ computeMissing li td sel = [] := by
    intro hcontra
    rw [hshape] at hcontra
    rcases hplace with h | h
    · have hc : placeholderNames.contains (strLower li.name) = true := by rw [h]; decide
      rw [if_pos ⟨hn, hc⟩] at hcontra
      simp at hcontra
    · have hc : placeholderPhones.contains li.phone = true := by rw [h]; decide
      have h2 := (List.append_eq_nil.mp hcontra).2
      rw [if_pos ⟨hph, hc⟩] at h2
      simp at h2
  refine ⟨hne, ?_, ?_, ?_⟩
  · intro h
    have hc : placeholderNames.contains (strLower li.name) = true := by rw [h]; decide
    rw [hshape, if_pos ⟨hn, hc⟩]
    simp
  · intro h
    have hc : placeholderPhones.contains li.phone = true := by rw [h]; decide
    rw [hshape]
    refine List.mem_append.mpr (Or.inr ?_)
    rw [if_pos ⟨hph, hc⟩]
    simp
  · simp [smartBookingStep, hne]

/-- Witness for C3 at a concrete state (name "TEST", a populated phone). -/
theorem C3_placeholder_rejection_witness :
    ¬ computeMissing ⟨"TEST", "0501234567", ""⟩ ⟨"rocky_001", "2024-11-06", "10:00"⟩ "" = [] ∧
    (strLower "TEST" = "test" →
      "your actual name (not a placeholder)" ∈
        computeMissing ⟨"TEST", "0501234567", ""⟩ ⟨"rocky_001", "2024-11-06", "10:00"⟩ "") ∧
    (("0501234567" : String) = "0000000000" →
      "your actual phone number (not a placeholder)" ∈
        computeMissing ⟨"TEST", "0501234567", ""⟩ ⟨"rocky_001", "2024-11-06", "10:00"⟩ "") ∧
    smartBookingStep ⟨2024, 11, fun _ => "2024-11-06", "iso"⟩ []
        ⟨"TEST", "0501234567", ""⟩ ⟨"rocky_001", "2024-11-06", "10:00"⟩ "" "tc1" =
      ([], .toolMsg
        (missingMessage
          (computeMissing ⟨"TEST", "0501234567", ""⟩
            ⟨"rocky_001", "2024-11-06", "10:00"⟩ "")) "tc1") :=
  C3_placeholder_rejection ⟨2024, 11, fun _ => "2024-11-06", "iso"⟩ []
    ⟨"TEST", "0501234567", ""⟩ ⟨"rocky_001", "2024-11-06", "10:00"⟩ "" "tc1"
    (by decide) (by decide) (by decide) (by decide) (by decide) (Or.inl (by decide))

/-! ## Booking-store lemmas -/

theorem calLookup_cons (e : String × PropCalendar) (l : Calendar) (pid : String) :
    calLookup (e :: l) pid = if e.1 == pid then some e.2 else calLookup l pid := by
  by_cases h : e.1 == pid <;> simp [calLookup, List.find?, h]

theorem calLookup_append_of_none {cal : Calendar} {pid : String} (v : PropCalendar)
    (h : calLookup cal pid = none) :
    calLookup (cal ++ [(pid, v)]) pid = some v := by
  induction cal with
  | nil => simp [calLookup, List.find?]
  | cons e rest ih =>
    rw [calLookup_cons] at h
    by_cases he : e.1 == pid
    · rw [if_pos he] at h; exact absurd h (by simp)
    · rw [if_neg he] at h
      rw [List.cons_append, calLookup_cons, if_neg he]
      exact ih h

theorem calLookup_append_of_some {cal : Calendar} {pid : String} {pc : PropCalendar}
    (l : Calendar) (h : calLookup cal pid = some pc) :
    calLookup (cal ++ l) pid = some pc := by
  induction cal with
  | nil => simp [calLookup, List.find?] at h
  | cons e rest ih =>
    rw [calLookup_cons] at h
    rw [List.cons_append, calLookup_cons]
    by_cases he : e.1 == pid
    · rwa [if_pos he] at h ⊢
    · rw [if_neg he] at h ⊢; exact ih h

theorem calLookup_calSet_self {cal : Calendar} {pid : String} {pc : PropCalendar}
    (v : PropCalendar) (h : calLookup cal pid = some pc) :
    calLookup (calSet cal pid v) pid = some v := by
  induction cal with
  | nil => simp [calLookup, List.find?] at h
  | cons e rest ih =>
    rw [calLookup_cons] at h
    by_cases he : e.1 == pid
    · simp only [calSet, List.map_cons, if_pos he]
      rw [calLookup_cons, if_pos (by simpa using he)]
    · rw [if_neg he] at h
      simp only [calSet, List.map_cons, if_neg he]
      rw [calLookup_cons, if_neg he]
      exact ih h

theorem calLookup_calSet_other {cal : Calendar} {pid pid' : String}
    (v : PropCalendar) (h : ¬ pid' = pid) :
    calLookup (calSet cal pid v) pid' = calLookup cal pid' := by
  induction cal with
  | nil => simp [calSet]
  | cons e rest ih =>
    by_cases he : e.1 == pid
    · simp only [calSet, List.map_cons, if_pos he]
      rw [calLookup_cons, calLookup_cons]
      have : ¬ e.1 == pid' := by
        simp only [beq_iff_eq] at he ⊢
        rw [he]; exact fun hc => h hc.symm
      rw [if_neg this, if_neg this]
      exact ih
    · simp only [calSet, List.map_cons, if_neg he]
      rw [calLookup_cons, calLookup_cons]
      by_cases h2 : e.1 == pid'
      · rw [if_pos h2, if_pos h2]
      · rw [if_neg h2, if_neg h2]; exact ih

theorem calLookup_append_ne {cal : Calendar} {pid pid2 : String} (v : PropCalendar)
    (hne : ¬ pid2 = pid) :
    calLookup (cal ++ [(pid, v)]) pid2 = calLookup cal pid2 := by
  induction cal with
  | nil =>
    have : ¬ (pid == pid2) = true := by
      simp only [beq_iff_eq]
      exact fun hc => hne hc.symm
    simp [calLookup, List.find?, this]
  | cons e rest ih =>
    rw [List.cons_append, calLookup_cons, calLookup_cons]
    by_cases he : e.1 == pid2
    · rw [if_pos he, if_pos he]
    · rw [if_neg he, if_neg he]; exact ih

theorem calLookup_init_ne {c : Clock} {cal : Calendar} {pid pid2 : String}
    (hne : ¬ pid2 = pid) :
    calLookup (initCalendarForProperty c cal pid) pid2 = calLookup cal pid2 := by
  unfold initCalendarForProperty
  by_cases h : (calLookup cal pid).isSome
  · rw [if_pos h]
  · rw [if_neg h]
    exact calLookup_append_ne _ hne

theorem calLookup_init_other {c : Clock} {cal : Calendar} {pid pid' : String}
    (hne : ¬ calLookup cal pid' = none) :
    calLookup (initCalendarForProperty c cal pid) pid' = calLookup cal pid' := by
  unfold initCalendarForProperty
  by_cases h : (calLookup cal pid).isSome
  · rw [if_pos h]
  · rw [if_neg h]
    match hpc : calLookup cal pid' with
    | none => exact absurd hpc hne
    | some pc => exact calLookup_append_of_some _ hpc

/-- Every slot of a freshly generated calendar is available. -/
theorem defaultSlots_available (c : Clock) :
    ∀ s ∈ defaultSlots c, s.available = true := by
  intro s hs
  simp only [defaultSlots, List.mem_flatMap, List.mem_map] at hs
  obtain ⟨d, _, h, _, hmk⟩ := hs
  rw [← hmk]

/-- When a (date, time) pair is offered by a slot list of available
slots, the loop's first matching slot is the available slot itself. -/
theorem firstSlot_of_offered {d t : String} {slots : List Slot}
    (hav : ∀ s ∈ slots, s.available = true)
    (hdt : (d, t) ∈ slots.map fun s => (s.date, s.time)) :
    firstSlot d t slots = some ⟨d, t, true⟩ := by
  induction slots with
  | nil => simp at hdt
  | cons s rest ih =>
    by_cases hm : s.date == d && s.time == t
    · have hd : s.date = d ∧ s.time = t := by
        simpa [Bool.and_eq_true, beq_iff_eq] using hm
      have hs : s = ⟨d, t, true⟩ := by
        cases s with
        | mk a b av =>
          have := hav ⟨a, b, av⟩ (by simp)
          simp only at hd this
          rw [hd.1, hd.2, this]
      rw [firstSlot, if_pos hm, hs]
    · rw [firstSlot, if_neg hm]
      refine ih (fun x hx => hav x (by simp [hx])) ?_
      simp only [List.map_cons, List.mem_cons] at hdt
      rcases hdt with h | h
      · exfalso
        have : s.date = d ∧ s.time = t := by
          constructor
          · exact congrArg Prod.fst h.symm
          · exact congrArg Prod.snd h.symm
        exact hm (by simp [beq_iff_eq, this.1, this.2])
      · exact h

/-- When no slot of the list offers the pair, the loop finds nothing. -/
theorem firstSlot_of_not_offered {d t : String} {slots : List Slot}
    (hdt : (d, t) ∉ slots.map fun s => (s.date, s.time)) :
    firstSlot d t slots = none := by
  induction slots with
  | nil => rfl
  | cons s rest ih =>
    simp only [List.map_cons, List.mem_cons, not_or] at hdt
    have hm : ¬ (s.date == d && s.time == t) = true := by
      intro hc
      have : s.date = d ∧ s.time = t := by
        simpa [Bool.and_eq_true, beq_iff_eq] using hc
      exact hdt.1 (by rw [this.1, this.2])
    rw [firstSlot, if_neg hm]
    exact ih hdt.2

/-- The loop fails (no store change) exactly when no slot matches. -/
theorem findAndBook_of_none {d t : String} {slots : List Slot}
    (h : firstSlot d t slots = none) : findAndBook d t slots = .notFound := by
  induction slots with
  | nil => rfl
  | cons s rest ih =>
    rw [firstSlot] at h
    by_cases hm : s.date == d && s.time == t
    · rw [if_pos hm] at h; exact absurd h (by simp)
    · rw [if_neg hm] at h
      rw [findAndBook, if_neg hm, ih h]

/-- The loop rejects when the first matching slot is unavailable. -/
theorem findAndBook_of_unavailable {d t : String} {slots : List Slot} {s : Slot}
    (h : firstSlot d t slots = some s) (hav : s.available = false) :
    findAndBook d t slots = .alreadyBooked := by
  induction slots with
  | nil => simp [firstSlot] at h
  | cons x rest ih =>
    rw [firstSlot] at h
    by_cases hm : x.date == d && x.time == t
    · rw [if_pos hm] at h
      have hx : x = s := by simpa using h
      rw [findAndBook, if_pos hm, if_pos]
      rw [hx, hav]; rfl
    · rw [if_neg hm] at h
      rw [findAndBook, if_neg hm, ih h]

/-- The loop books when the first matching slot is available, flipping
exactly that slot: the prefix of non-matching slots and the suffix are
returned untouched. -/
theorem findAndBook_of_available {d t : String} {slots : List Slot} {s : Slot}
    (h : firstSlot d t slots = some s) (hav : s.available = true) :
    ∃ pre post, slots = pre ++ s :: post ∧
      (∀ x ∈ pre, ¬ (x.date = d ∧ x.time = t)) ∧
      s.date = d ∧ s.time = t ∧
      findAndBook d t slots = .booked (pre ++ { s with available := false } :: post) := by
  induction slots with
  | nil => simp [firstSlot] at h
  | cons x rest ih =>
    rw [firstSlot] at h
    by_cases hm : x.date == d && x.time == t
    · rw [if_pos hm] at h
      have hx : x = s := by simpa using h
      have hd : s.date = d ∧ s.time = t := by
        rw [← hx]; simpa [Bool.and_eq_true, beq_iff_eq] using hm
      refine ⟨[], rest, by simp [hx], by simp, hd.1, hd.2, ?_⟩
      rw [findAndBook, if_pos hm, if_neg (by rw [hx, hav]; decide), hx]
      simp
    · rw [if_neg hm] at h
      obtain ⟨pre, post, hsplit, hpre, hd, ht, hfb⟩ := ih h
      refine ⟨x :: pre, post, by simp [hsplit], ?_, hd, ht, ?_⟩
      · intro y hy
        rcases List.mem_cons.mp hy with hy | hy
        · intro hc
          rw [hy] at hc
          exact hm (by simp [beq_iff_eq, hc.1, hc.2])
        · exact hpre y hy
      · rw [findAndBook, if_neg hm, hfb]
        simp

/-- Booking a different (date, time) pair never touches which slot the
pair (d, t) resolves to. -/
theorem firstSlot_findAndBook_other {d t d' t' : String} {slots slots2 : List Slot}
    (hne : ¬ (d' = d ∧ t' = t))
    (h : findAndBook d' t' slots = .booked slots2) :
    firstSlot d t slots2 = firstSlot d t slots := by
  induction slots generalizing slots2 with
  | nil => simp [findAndBook] at h
  | cons x rest ih =>
    rw [findAndBook] at h
    by_cases hm : x.date == d' && x.time == t'
    · rw [if_pos hm] at h
      have hxd : x.date = d' ∧ x.time = t' := by
        simpa [Bool.and_eq_true, beq_iff_eq] using hm
      by_cases hx : (!x.available) = true
      · rw [if_pos hx] at h; exact absurd h (by simp)
      · rw [if_neg hx] at h
        have h2 : slots2 = { x with available := false } :: rest := by
          simpa using h.symm
        have hnm : ¬ (x.date == d && x.time == t) = true := by
          intro hc
          have hcd : x.date = d ∧ x.time = t := by
            simpa [Bool.and_eq_true, beq_iff_eq] using hc
          exact hne ⟨by rw [← hxd.1, hcd.1], by rw [← hxd.2, hcd.2]⟩
        rw [h2, firstSlot, firstSlot, if_neg (by simpa using hnm), if_neg hnm]
    · rw [if_neg hm] at h
      match hrec : findAndBook d' t' rest with
      | .booked r =>
        rw [hrec] at h
        have h2 : slots2 = x :: r := by simpa using h.symm
        rw [h2, firstSlot, firstSlot]
        by_cases hxm : x.date == d && x.time == t
        · rw [if_pos hxm, if_pos hxm]
        · rw [if_neg hxm, if_neg hxm]
          exact ih hrec
      | .alreadyBooked => rw [hrec] at h; exact absurd h (by simp)
      | .notFound => rw [hrec] at h; exact absurd h (by simp)

/-- After a successful booking of (d, t) the pair resolves to the flipped
slot. -/
theorem firstSlot_after_flip {d t : String} {pre post : List Slot} {s : Slot}
    (hpre : ∀ x ∈ pre, ¬ (x.date = d ∧ x.time = t)) (hd : s.date = d) (ht : s.time = t) :
    firstSlot d t (pre ++ { s with available := false } :: post) =
      some { s with available := false } := by
  induction pre with
  | nil =>
    rw [List.nil_append, firstSlot, if_pos]
    simp [beq_iff_eq, hd, ht]
  | cons x rest ih =>
    rw [List.cons_append, firstSlot, if_neg]
    · exact ih (fun y hy => hpre y (by simp [hy]))
    · intro hc
      exact hpre x (by simp) (by simpa [Bool.and_eq_true, beq_iff_eq] using hc)

/-- A successful book_slot leaves its own slot taken. -/
theorem book_slot_ok_IsBookedAt {c : Clock} {cal cal2 : Calendar}
    {pid d t name phone : String} {r : BookResult}
    (h : book_slot c cal pid d t name phone = (cal2, r))
    (hok : ∃ cid, r = .ok pid d t name phone cid) :
    IsBookedAt pid d t cal2 := by
  obtain ⟨cid, hr⟩ := hok
  subst hr
  simp only [book_slot] at h
  match hpc : calLookup (initCalendarForProperty c cal pid) pid with
  | none =>
    simp only [hpc] at h
    simp [Prod.ext_iff] at h
  | some pc =>
    simp only [hpc] at h
    match hfb : findAndBook d t pc.available_slots with
    | .alreadyBooked =>
      simp only [hfb] at h
      simp [Prod.ext_iff] at h
    | .notFound =>
      simp only [hfb] at h
      simp [Prod.ext_iff] at h
    | .booked slots2 =>
      simp only [hfb] at h
      have hcal2 : cal2 = calSet (initCalendarForProperty c cal pid) pid
          ⟨slots2, pc.booked_slots ++ [⟨d, t, name, phone, c.nowIso⟩]⟩ :=
        (congrArg Prod.fst h).symm
      match hfs : firstSlot d t pc.available_slots with
      | none => rw [findAndBook_of_none hfs] at hfb; exact absurd hfb (by simp)
      | some s =>
        by_cases hav : s.available = true
        · obtain ⟨pre, post, _, hpre, hd, ht, hfb2⟩ := findAndBook_of_available hfs hav
          rw [hfb2] at hfb
          have hs2 : slots2 = pre ++ { s with available := false } :: post := by
            simpa using hfb.symm
          refine ⟨⟨slots2, pc.booked_slots ++ [⟨d, t, name, phone, c.nowIso⟩]⟩,
            ?_, { s with available := false }, ?_, rfl⟩
          · rw [hcal2]; exact calLookup_calSet_self _ hpc
          · rw [hs2]; exact firstSlot_after_flip hpre hd ht
        · rw [findAndBook_of_unavailable hfs (by simpa using hav)] at hfb
          exact absurd hfb (by simp)

/-- Any book_slot call (any property, any slot, any customer) preserves a
taken slot. -/
theorem book_slot_preserves_IsBookedAt {c : Clock} {cal : Calendar}
    {pid d t : String} (pid' d' t' n' p' : String)
    (h : IsBookedAt pid d t cal) :
    IsBookedAt pid d t (book_slot c cal pid' d' t' n' p').1 := by
  obtain ⟨pc, hpc, s, hfs, hav⟩ := h
  have hinit : calLookup (initCalendarForProperty c cal pid') pid = some pc := by
    rw [calLookup_init_other (by rw [hpc]; simp)]; exact hpc
  rcases hpc' : calLookup (initCalendarForProperty c cal pid') pid' with _ | pc'
  · simp only [book_slot, hpc']
    exact ⟨pc, hinit, s, hfs, hav⟩
  · rcases hfb : findAndBook d' t' pc'.available_slots with slots2 | _ | _
    · simp only [book_slot, hpc', hfb]
      by_cases hpe : pid' = pid
      · subst hpe
        have hpceq : pc' = pc := by
          rw [hinit] at hpc'; exact (Option.some.inj hpc').symm
        subst hpceq
        by_cases hne : d' = d ∧ t' = t
        · exfalso
          rw [hne.1, hne.2] at hfb
          rw [findAndBook_of_unavailable hfs hav] at hfb
          simp at hfb
        · refine ⟨⟨slots2, pc'.booked_slots ++ [⟨d', t', n', p', c.nowIso⟩]⟩,
            calLookup_calSet_self _ hpc', s, ?_, hav⟩
          rw [firstSlot_findAndBook_other hne hfb]
          exact hfs
      · refine ⟨pc, ?_, s, hfs, hav⟩
        rw [calLookup_calSet_other _ (fun hc => hpe hc.symm)]
        exact hinit
    · simp only [book_slot, hpc', hfb]
      exact ⟨pc, hinit, s, hfs, hav⟩
    · simp only [book_slot, hpc', hfb]
      exact ⟨pc, hinit, s, hfs, hav⟩

/-- A book_slot call for a taken slot always fails with the
already-booked error and leaves the store unchanged. -/
theorem book_slot_of_IsBookedAt {c : Clock} {cal : Calendar} {pid d t : String}
    (n p : String) (h : IsBookedAt pid d t cal) :
    book_slot c cal pid d t n p = (cal, .err "Slot is already booked") := by
  obtain ⟨pc, hpc, s, hfs, hav⟩ := h
  have hinit : initCalendarForProperty c cal pid = cal := by
    unfold initCalendarForProperty
    rw [if_pos (by rw [hpc]; rfl)]
  simp only [book_slot, hinit, hpc, findAndBook_of_unavailable hfs hav]

theorem applyCalls_preserves_IsBookedAt (c : Clock) (calls : List BookArgs)
    {pid d t : String} {cal : Calendar} (h : IsBookedAt pid d t cal) :
    IsBookedAt pid d t (applyCalls c cal calls) := by
  induction calls generalizing cal with
  | nil => exact h
  | cons a rest ih => exact ih (book_slot_preserves_IsBookedAt _ _ _ _ _ h)

/-! ## C1: slot exclusivity and deterministic confirmation ids -/

/-- C1: for a property not yet in the store and any offered (date, time)
slot, the first book_slot call succeeds and returns the confirmation id
that is a function of (property_id, date, time) alone (the customer's
name and phone are arbitrary), and after any further sequence of
book_slot calls whatsoever, a book_slot call for the same triple (again
with arbitrary customer data) fails with the already-booked error:
idempotent-reject, not idempotent-success. -/
theorem C1_slot_exclusivity (c : Clock) (cal : Calendar)
    (pid d t name phone name2 phone2 : String) (calls : List BookArgs)
    (h0 : calLookup cal pid = none) (hdt : (d, t) ∈ offeredPairs c) :
    (book_slot c cal pid d t name phone).2 =
      .ok pid d t name phone (mkConfirmationId pid d t) ∧
    (book_slot c (applyCalls c (book_slot c cal pid d t name phone).1 calls)
        pid d t name2 phone2).2 = .err "Slot is already booked" := by
  have hinit : initCalendarForProperty c cal pid = cal ++ [(pid, freshCalendar c)] := by
    unfold initCalendarForProperty
    rw [if_neg (by rw [h0]; simp)]
  have hlook : calLookup (initCalendarForProperty c cal pid) pid =
      some (freshCalendar c) := by
    rw [hinit]; exact calLookup_append_of_none _ h0
  have hfs : firstSlot d t (freshCalendar c).available_slots = some ⟨d, t, true⟩ :=
    firstSlot_of_offered (defaultSlots_available c) hdt
  obtain ⟨pre, post, _, hpre, hsd, hst, hfb⟩ :=
    findAndBook_of_available hfs (by rfl)
  have h1 : (book_slot c cal pid d t name phone).2 =
      .ok pid d t name phone (mkConfirmationId pid d t) := by
    simp only [book_slot, hlook, hfb]
  have hbooked : IsBookedAt pid d t (book_slot c cal pid d t name phone).1 :=
    book_slot_ok_IsBookedAt rfl ⟨mkConfirmationId pid d t, h1⟩
  have hpres := applyCalls_preserves_IsBookedAt c calls hbooked
  have h2 := @book_slot_of_IsBookedAt c _ _ _ _ name2 phone2 hpres
  exact ⟨h1, congrArg Prod.snd h2⟩

/-- Witness for C1: a fresh store, the first offered day's 10:00 slot,
one unrelated intervening booking. -/
theorem C1_slot_exclusivity_witness :
    (book_slot ⟨2024, 11, fun n => "D" ++ toString n, "iso"⟩ [] "rocky_001" "D0" "10:00"
        "laksh" "3122037041").2 =
      .ok "rocky_001" "D0" "10:00" "laksh" "3122037041"
        (mkConfirmationId "rocky_001" "D0" "10:00") ∧
    (book_slot ⟨2024, 11, fun n => "D" ++ toString n, "iso"⟩
        (applyCalls ⟨2024, 11, fun n => "D" ++ toString n, "iso"⟩
          (book_slot ⟨2024, 11, fun n => "D" ++ toString n, "iso"⟩ [] "rocky_001" "D0"
            "10:00" "laksh" "3122037041").1
          [⟨"rocky_002", "D1", "14:00", "sarah", "0501234567"⟩])
        "rocky_001" "D0" "10:00" "someone" "else").2 = .err "Slot is already booked" :=
  C1_slot_exclusivity ⟨2024, 11, fun n => "D" ++ toString n, "iso"⟩ [] "rocky_001"
    "D0" "10:00" "laksh" "3122037041" "someone" "else"
    [⟨"rocky_002", "D1", "14:00", "sarah", "0501234567"⟩] (by rfl) (by decide)

/-! ## C8: deterministic slot generation; unknown slots are rejected -/

/-- C8: (a) a property absent from the store gets, on first reference,
exactly the calendar of 10:00, 14:00 and 16:00 offers for each of the 7
days from today, all available and with no bookings; (b) for a property
whose stored slots all carry offered (date, time) pairs, a book_slot call
for a pair that is not an offered one fails with the not-found error and
returns the store unchanged. -/
theorem C8_slot_generation (c : Clock) (cal cal' : Calendar) (pid pid' d t n p : String)
    (pc : PropCalendar)
    (h0 : calLookup cal' pid' = none)
    (hdt : (d, t) ∉ offeredPairs c)
    (hpc : calLookup cal pid = some pc)
    (hsub : ∀ s ∈ pc.available_slots, (s.date, s.time) ∈ offeredPairs c) :
    calLookup (initCalendarForProperty c cal' pid') pid' = some
      ⟨[⟨c.dayStr 0, "10:00", true⟩, ⟨c.dayStr 0, "14:00", true⟩, ⟨c.dayStr 0, "16:00", true⟩,
        ⟨c.dayStr 1, "10:00", true⟩, ⟨c.dayStr 1, "14:00", true⟩, ⟨c.dayStr 1, "16:00", true⟩,
        ⟨c.dayStr 2, "10:00", true⟩, ⟨c.dayStr 2, "14:00", true⟩, ⟨c.dayStr 2, "16:00", true⟩,
        ⟨c.dayStr 3, "10:00", true⟩, ⟨c.dayStr 3, "14:00", true⟩, ⟨c.dayStr 3, "16:00", true⟩,
        ⟨c.dayStr 4, "10:00", true⟩, ⟨c.dayStr 4, "14:00", true⟩, ⟨c.dayStr 4, "16:00", true⟩,
        ⟨c.dayStr 5, "10:00", true⟩, ⟨c.dayStr 5, "14:00", true⟩, ⟨c.dayStr 5, "16:00", true⟩,
        ⟨c.dayStr 6, "10:00", true⟩, ⟨c.dayStr 6, "14:00", true⟩, ⟨c.dayStr 6, "16:00", true⟩],
       []⟩ ∧
    book_slot c cal pid d t n p = (cal, .err "Slot not found") := by
  constructor
  · have hinit : initCalendarForProperty c cal' pid' =
        cal' ++ [(pid', freshCalendar c)] := by
      unfold initCalendarForProperty
      rw [if_neg (by rw [h0]; simp)]
    rw [hinit, calLookup_append_of_none _ h0]
    rfl
  · have hnot : (d, t) ∉ pc.available_slots.map fun s => (s.date, s.time) := by
      intro hc
      obtain ⟨s, hs, hpair⟩ := List.mem_map.mp hc
      exact hdt (hpair ▸ hsub s hs)
    have hinit2 : initCalendarForProperty c cal pid = cal := by
      unfold initCalendarForProperty
      rw [if_pos (by rw [hpc]; rfl)]
    simp only [book_slot, hinit2, hpc,
      findAndBook_of_none (firstSlot_of_not_offered hnot)]

/-- Witness for C8: a concrete clock, an absent property, a store holding
a fresh calendar, and the unoffered pair (D9, 10:00). -/
theorem C8_slot_generation_witness :
    calLookup
      (initCalendarForProperty ⟨2024, 11, fun n => "D" ++ toString n, "iso"⟩ [] "rocky_001")
      "rocky_001" = some
      ⟨[⟨"D0", "10:00", true⟩, ⟨"D0", "14:00", true⟩, ⟨"D0", "16:00", true⟩,
        ⟨"D1", "10:00", true⟩, ⟨"D1", "14:00", true⟩, ⟨"D1", "16:00", true⟩,
        ⟨"D2", "10:00", true⟩, ⟨"D2", "14:00", true⟩, ⟨"D2", "16:00", true⟩,
        ⟨"D3", "10:00", true⟩, ⟨"D3", "14:00", true⟩, ⟨"D3", "16:00", true⟩,
        ⟨"D4", "10:00", true⟩, ⟨"D4", "14:00", true⟩, ⟨"D4", "16:00", true⟩,
        ⟨"D5", "10:00", true⟩, ⟨"D5", "14:00", true⟩, ⟨"D5", "16:00", true⟩,
        ⟨"D6", "10:00", true⟩, ⟨"D6", "14:00", true⟩, ⟨"D6", "16:00", true⟩], []⟩ ∧
    book_slot ⟨2024, 11, fun n => "D" ++ toString n, "iso"⟩
        [("rocky_002", freshCalendar ⟨2024, 11, fun n => "D" ++ toString n, "iso"⟩)]
        "rocky_002" "D9" "10:00" "laksh" "3122037041" =
      ([("rocky_002", freshCalendar ⟨2024, 11, fun n => "D" ++ toString n, "iso"⟩)],
       .err "Slot not found") :=
  C8_slot_generation ⟨2024, 11, fun n => "D" ++ toString n, "iso"⟩
    [("rocky_002", freshCalendar ⟨2024, 11, fun n => "D" ++ toString n, "iso"⟩)] []
    "rocky_002" "rocky_001" "D9" "10:00" "laksh" "3122037041"
    (freshCalendar ⟨2024, 11, fun n => "D" ++ toString n, "iso"⟩)
    (by rfl) (by decide) (by rfl) (by decide)

/-! ## C10: the frame of a successful booking -/

/-- C10: when book_slot succeeds, the only changes to the store are that
the first slot matching (date, time) of that property — available before
the call — has its flag set to false and one booking record is appended
to that property's booked list; every slot before it does not match, the
rest of the slot list is untouched, and every other property's calendar
(relative to the store in which the booked property exists, i.e. after
the potential lazy initialization) is unchanged, as is every other
property's entry of the original store. -/
theorem C10_success_frame (c : Clock) (cal : Calendar) (pid pid2 d t n p cid : String)
    (hok : (book_slot c cal pid d t n p).2 = .ok pid d t n p cid)
    (hne : ¬ pid2 = pid) :
    calLookup (book_slot c cal pid d t n p).1 pid2 = calLookup cal pid2 ∧
    (∃ pc pre post s,
      calLookup (initCalendarForProperty c cal pid) pid = some pc ∧
      pc.available_slots = pre ++ s :: post ∧
      s.date = d ∧ s.time = t ∧ s.available = true ∧
      (∀ x ∈ pre, ¬ (x.date = d ∧ x.time = t)) ∧
      calLookup (book_slot c cal pid d t n p).1 pid = some
        ⟨pre ++ { s with available := false } :: post,
         pc.booked_slots ++ [⟨d, t, n, p, c.nowIso⟩]⟩) := by
  rcases hpc : calLookup (initCalendarForProperty c cal pid) pid with _ | pc
  · exfalso
    simp only [book_slot, hpc] at hok
    simp at hok
  · rcases hfb : findAndBook d t pc.available_slots with slots2 | _ | _
    · have hfirst : book_slot c cal pid d t n p =
          (calSet (initCalendarForProperty c cal pid) pid
            ⟨slots2, pc.booked_slots ++ [⟨d, t, n, p, c.nowIso⟩]⟩,
           .ok pid d t n p (mkConfirmationId pid d t)) := by
        simp only [book_slot, hpc, hfb]
      rcases hfs : firstSlot d t pc.available_slots with _ | s
      · rw [findAndBook_of_none hfs] at hfb; exact absurd hfb (by simp)
      · by_cases hav : s.available = true
        · obtain ⟨pre, post, hsplit, hpre, hsd, hst, hfb2⟩ :=
            findAndBook_of_available hfs hav
          rw [hfb2] at hfb
          have hs2 : slots2 = pre ++ { s with available := false } :: post := by
            simpa using hfb.symm
          constructor
          · rw [hfirst]
            simp only
            rw [calLookup_calSet_other _ hne]
            exact calLookup_init_ne hne
          · refine ⟨pc, pre, post, s, rfl, hsplit, hsd, hst, hav, hpre, ?_⟩
            rw [hfirst]
            simp only
            rw [hs2] at hfb ⊢
            exact calLookup_calSet_self _ hpc
        · rw [findAndBook_of_unavailable hfs (by simpa using hav)] at hfb
          exact absurd hfb (by simp)
    · exfalso
      simp only [book_slot, hpc, hfb] at hok
      simp at hok
    · exfalso
      simp only [book_slot, hpc, hfb] at hok
      simp at hok

/-- Witness for C10: a concrete successful booking on a fresh store. -/
theorem C10_success_frame_witness :
    calLookup (book_slot ⟨2024, 11, fun n => "D" ++ toString n, "iso"⟩ [] "rocky_001"
        "D0" "10:00" "laksh" "3122037041").1 "rocky_002" = calLookup [] "rocky_002" ∧
    (∃ pc pre post s,
      calLookup (initCalendarForProperty ⟨2024, 11, fun n => "D" ++ toString n, "iso"⟩ []
        "rocky_001") "rocky_001" = some pc ∧
      pc.available_slots = pre ++ s :: post ∧
      s.date = "D0" ∧ s.time = "10:00" ∧ s.available = true ∧
      (∀ x ∈ pre, ¬ (x.date = "D0" ∧ x.time = "10:00")) ∧
      calLookup (book_slot ⟨2024, 11, fun n => "D" ++ toString n, "iso"⟩ [] "rocky_001"
          "D0" "10:00" "laksh" "3122037041").1 "rocky_001" = some
        ⟨pre ++ { s with available := false } :: post,
         pc.booked_slots ++ [⟨"D0", "10:00", "laksh", "3122037041", "iso"⟩]⟩) :=
  C10_success_frame ⟨2024, 11, fun n => "D" ++ toString n, "iso"⟩ [] "rocky_001"
    "rocky_002" "D0" "10:00" "laksh" "3122037041"
    (mkConfirmationId "rocky_001" "D0" "10:00") (by decide) (by decide)

/-! ## C4: extraction on the four reference utterances -/

/-- C4: on an empty fact set, "laksh, 3122037041" yields name laksh and
phone 3122037041; "let's do november 7th at 2pm" yields the current
year's November 7 and 14:00; "9am tomorrow" yields tomorrow's date and
09:00 — but "my name is Sarah Ahmed and phone is 0501234567" yields the
name "Sarah Ahmed and" (the greedy multi-word name capture also swallows
the word "and", defeating the pattern's own \s+and terminator), not the
"Sarah Ahmed" the specification states, with the phone still 0501234567.
This refutes the claim's second item and is the failing input of the
recorded code bug. -/
theorem C4_extraction_behavior (c : Clock) :
    (extractFacts c "" emptyFacts "laksh, 3122037041").lead_info.name = "laksh" ∧
    (extractFacts c "" emptyFacts "laksh, 3122037041").lead_info.phone = "3122037041" ∧
    (extractFacts c "" emptyFacts
      "my name is Sarah Ahmed and phone is 0501234567").lead_info.name
        = "Sarah Ahmed and" ∧
    (extractFacts c "" emptyFacts
      "my name is Sarah Ahmed and phone is 0501234567").lead_info.phone
        = "0501234567" ∧
    (extractFacts c "" emptyFacts "let's do november 7th at 2pm").tour_details.date
      = toString c.year ++ "-11-07" ∧
    (extractFacts c "" emptyFacts "let's do november 7th at 2pm").tour_details.time
      = "14:00" ∧
    (extractFacts c "" emptyFacts "9am tomorrow").tour_details.date = c.dayStr 1 ∧
    (extractFacts c "" emptyFacts "9am tomorrow").tour_details.time = "09:00" :=
  ⟨rfl, rfl, rfl, rfl,
   (show (extractFacts c "" emptyFacts
      "let's do november 7th at 2pm").tour_details.date = formatDate c.year 11 7 from rfl).trans
     (by unfold formatDate; rfl),
   rfl, rfl, rfl⟩

/-! ## Engine soundness: what any recorded capture must look like -/

theorem combineMin_ne_none_left {x y : Option Nat} (h : ¬ x = none) :
    ¬ combineMin x y = none := by
  cases x with
  | none => exact absurd rfl h
  | some a => cases y <;> simp [combineMin]

theorem combineMin_ne_none_right {x y : Option Nat} (h : ¬ y = none) :
    ¬ combineMin x y = none := by
  cases y with
  | none => exact absurd rfl h
  | some a => cases x <;> simp [combineMin]

theorem combineMin_le_left {x y : Option Nat} {a b : Nat}
    (hx : x = some a) (h : combineMin x y = some b) : b ≤ a := by
  subst hx
  cases y with
  | none => simp [combineMin] at h; omega
  | some z => simp [combineMin] at h; omega

theorem combineMin_le_right {x y : Option Nat} {a b : Nat}
    (hy : y = some a) (h : combineMin x y = some b) : b ≤ a := by
  subst hy
  cases x with
  | none => simp [combineMin] at h; omega
  | some z => simp [combineMin] at h; omega

/-- Every match splits the input into the consumed prefix and the rest:
the prefix is at least minLen long and its characters satisfy every
predicate all the regex's classes imply. -/
theorem reMatch_split (f : Nat) : ∀ (re : RE) (cs : List Char),
    ∀ gr ∈ reMatch f re cs, ∃ pre, cs = pre ++ gr.2 ∧ minLen re ≤ pre.length ∧
      ∀ p : Char → Bool, clsWithin re p → ∀ ch ∈ pre, p ch = true := by
  induction f with
  | zero => intro re cs gr hgr; simp [reMatch] at hgr
  | succ f ih =>
    intro re cs gr hgr
    cases re with
    | eps =>
      simp only [reMatch, List.mem_singleton] at hgr
      subst hgr
      exact ⟨[], by simp, by simp [minLen], by simp⟩
    | eos =>
      cases cs with
      | nil =>
        simp only [reMatch, List.mem_singleton] at hgr
        subst hgr
        exact ⟨[], by simp, by simp [minLen], by simp⟩
      | cons a t => simp [reMatch] at hgr
    | cls q =>
      cases cs with
      | nil => simp [reMatch] at hgr
      | cons a t =>
        by_cases hq : q a = true
        · simp only [reMatch, hq, if_pos, List.mem_singleton] at hgr
          subst hgr
          refine ⟨[a], by simp, by simp [minLen], ?_⟩
          intro p hp ch hch
          rw [List.mem_singleton] at hch
          subst hch
          exact hp _ hq
        · simp [reMatch, hq] at hgr
    | seq a b =>
      simp only [reMatch, List.mem_flatMap, List.mem_map] at hgr
      obtain ⟨gr1, h1, gr2, h2, hmk⟩ := hgr
      obtain ⟨p1, hcs, hm1, hc1⟩ := ih a cs gr1 h1
      obtain ⟨p2, hcs2, hm2, hc2⟩ := ih b gr1.2 gr2 h2
      refine ⟨p1 ++ p2, ?_, ?_, ?_⟩
      · rw [← hmk]
        simp only
        rw [hcs, hcs2, List.append_assoc]
      · simp only [minLen, List.length_append]
        omega
      · intro p hp ch hch
        rcases List.mem_append.mp hch with hch | hch
        · exact hc1 p hp.1 ch hch
        · exact hc2 p hp.2 ch hch
    | alt a b =>
      simp only [reMatch, List.mem_append] at hgr
      rcases hgr with hgr | hgr
      · obtain ⟨p1, hcs, hm1, hc1⟩ := ih a cs gr hgr
        refine ⟨p1, hcs, ?_, fun p hp => hc1 p hp.1⟩
        simp only [minLen]
        omega
      · obtain ⟨p1, hcs, hm1, hc1⟩ := ih b cs gr hgr
        refine ⟨p1, hcs, ?_, fun p hp => hc1 p hp.2⟩
        simp only [minLen]
        omega
    | star r =>
      simp only [reMatch, List.mem_append, List.mem_flatMap, List.mem_singleton] at hgr
      rcases hgr with ⟨gr1, h1, hgr⟩ | hgr
      · by_cases hlt : gr1.2.length < cs.length
        · rw [if_pos hlt] at hgr
          simp only [List.mem_map] at hgr
          obtain ⟨gr2, h2, hmk⟩ := hgr
          obtain ⟨p1, hcs, _, hc1⟩ := ih r cs gr1 h1
          obtain ⟨p2, hcs2, _, hc2⟩ := ih (.star r) gr1.2 gr2 h2
          refine ⟨p1 ++ p2, ?_, by simp [minLen], ?_⟩
          · rw [← hmk]
            simp only
            rw [hcs, hcs2, List.append_assoc]
          · intro p hp ch hch
            rcases List.mem_append.mp hch with hch | hch
            · exact hc1 p hp ch hch
            · exact hc2 p hp ch hch
        · rw [if_neg hlt] at hgr
          simp at hgr
      · subst hgr
        exact ⟨[], by simp, by simp [minLen], by simp⟩
    | grp m r =>
      simp only [reMatch, List.mem_map] at hgr
      obtain ⟨gr1, h1, hmk⟩ := hgr
      obtain ⟨p1, hcs, hm1, hc1⟩ := ih r cs gr1 h1
      refine ⟨p1, ?_, hm1, fun p hp => hc1 p hp⟩
      rw [← hmk]
      exact hcs

/-- Every recorded capture of group n respects the syntactic length lower
bound and, when every occurrence of the group is over classes implying p,
consists of characters satisfying p. -/
theorem reMatch_caps (f : Nat) : ∀ (re : RE) (cs : List Char),
    ∀ gr ∈ reMatch f re cs, ∀ q ∈ gr.1,
      ¬ groupLB re q.1 = none ∧
      (∀ b, groupLB re q.1 = some b → b ≤ q.2.length) ∧
      (∀ p : Char → Bool, groupCls re q.1 p → ∀ ch ∈ q.2, p ch = true) := by
  induction f with
  | zero => intro re cs gr hgr; simp [reMatch] at hgr
  | succ f ih =>
    intro re cs gr hgr q hq
    cases re with
    | eps =>
      simp only [reMatch, List.mem_singleton] at hgr
      subst hgr
      simp at hq
    | eos =>
      cases cs with
      | nil =>
        simp only [reMatch, List.mem_singleton] at hgr
        subst hgr
        simp at hq
      | cons a t => simp [reMatch] at hgr
    | cls p0 =>
      cases cs with
      | nil => simp [reMatch] at hgr
      | cons a t =>
        by_cases hp0 : p0 a = true
        · simp only [reMatch, hp0, if_pos, List.mem_singleton] at hgr
          subst hgr
          simp at hq
        · simp [reMatch, hp0] at hgr
    | seq a b =>
      simp only [reMatch, List.mem_flatMap, List.mem_map] at hgr
      obtain ⟨gr1, h1, gr2, h2, hmk⟩ := hgr
      have hq' : q ∈ gr1.1 ++ gr2.1 := by
        rw [← hmk] at hq
        exact hq
      rcases List.mem_append.mp hq' with hmem | hmem
      · obtain ⟨hne, hle, hcls⟩ := ih a cs gr1 h1 q hmem
        obtain ⟨av, hav⟩ := Option.ne_none_iff_exists'.mp hne
        refine ⟨combineMin_ne_none_left hne, ?_, ?_⟩
        · intro b hb
          exact le_trans (combineMin_le_left hav hb) (hle av hav)
        · intro p hp
          exact hcls p hp.1
      · obtain ⟨hne, hle, hcls⟩ := ih b gr1.2 gr2 h2 q hmem
        obtain ⟨av, hav⟩ := Option.ne_none_iff_exists'.mp hne
        refine ⟨combineMin_ne_none_right hne, ?_, ?_⟩
        · intro b' hb
          exact le_trans (combineMin_le_right hav hb) (hle av hav)
        · intro p hp
          exact hcls p hp.2
    | alt a b =>
      simp only [reMatch, List.mem_append] at hgr
      rcases hgr with hgr | hgr
      · obtain ⟨hne, hle, hcls⟩ := ih a cs gr hgr q hq
        obtain ⟨av, hav⟩ := Option.ne_none_iff_exists'.mp hne
        exact ⟨combineMin_ne_none_left hne,
          fun b' hb => le_trans (combineMin_le_left hav hb) (hle av hav),
          fun p hp => hcls p hp.1⟩
      · obtain ⟨hne, hle, hcls⟩ := ih b cs gr hgr q hq
        obtain ⟨av, hav⟩ := Option.ne_none_iff_exists'.mp hne
        exact ⟨combineMin_ne_none_right hne,
          fun b' hb => le_trans (combineMin_le_right hav hb) (hle av hav),
          fun p hp => hcls p hp.2⟩
    | star r =>
      simp only [reMatch, List.mem_append, List.mem_flatMap, List.mem_singleton] at hgr
      rcases hgr with ⟨gr1, h1, hgr⟩ | hgr
      · by_cases hlt : gr1.2.length < cs.length
        · rw [if_pos hlt] at hgr
          simp only [List.mem_map] at hgr
          obtain ⟨gr2, h2, hmk⟩ := hgr
          have hq' : q ∈ gr1.1 ++ gr2.1 := by
            rw [← hmk] at hq
            exact hq
          rcases List.mem_append.mp hq' with hmem | hmem
          · exact ih r cs gr1 h1 q hmem
          · exact ih (.star r) gr1.2 gr2 h2 q hmem
        · rw [if_neg hlt] at hgr
          simp at hgr
      · subst hgr
        simp at hq
    | grp m r =>
      simp only [reMatch, List.mem_map] at hgr
      obtain ⟨gr1, h1, hmk⟩ := hgr
      have hq' : q ∈ (m, cs.take (cs.length - gr1.2.length)) :: gr1.1 := by
        rw [← hmk] at hq
        exact hq
      obtain ⟨pre, hcs, hm1, hc1⟩ := reMatch_split f r cs gr1 h1
      have hlen : cs.length - gr1.2.length = pre.length := by
        rw [hcs]
        simp
      rcases List.mem_cons.mp hq' with hqq | hmem
      · subst hqq
        simp only [groupLB, if_pos rfl]
        have htake : cs.take pre.length = pre := by
          rw [hcs]
          exact List.take_left pre gr1.2
        refine ⟨by simp [combineMin_ne_none_left], ?_, ?_⟩
        · intro b hb
          have hble : b ≤ minLen r := combineMin_le_left rfl hb
          simp only [hlen, htake]
          exact le_trans hble hm1
        · intro p hp hch
          simp only [hlen, htake] at hch ⊢
          exact hc1 p (hp.1 rfl) hch
      · obtain ⟨hne, hle, hcls⟩ := ih r cs gr1 h1 q hmem
        simp only [groupLB]
        by_cases hm : m = q.1
        · rw [if_pos hm]
          obtain ⟨av, hav⟩ := Option.ne_none_iff_exists'.mp hne
          exact ⟨combineMin_ne_none_left (by simp),
            fun b' hb => le_trans (combineMin_le_right hav hb) (hle av hav),
            fun p hp => hcls p hp.2⟩
        · rw [if_neg hm]
          exact ⟨hne, hle, fun p hp => hcls p hp.2⟩

/-- A mandatory group is recorded by every match. -/
theorem reMatch_mustGrp (f : Nat) : ∀ (re : RE) (cs : List Char),
    ∀ gr ∈ reMatch f re cs, ∀ n, mustGrp re n → ∃ q ∈ gr.1, q.1 = n := by
  induction f with
  | zero => intro re cs gr hgr; simp [reMatch] at hgr
  | succ f ih =>
    intro re cs gr hgr n hmust
    cases re with
    | eps => exact absurd hmust (by simp [mustGrp])
    | eos => exact absurd hmust (by simp [mustGrp])
    | cls p0 => exact absurd hmust (by simp [mustGrp])
    | star r => exact absurd hmust (by simp [mustGrp])
    | seq a b =>
      simp only [reMatch, List.mem_flatMap, List.mem_map] at hgr
      obtain ⟨gr1, h1, gr2, h2, hmk⟩ := hgr
      rcases hmust with hmust | hmust
      · obtain ⟨q, hqm, hqn⟩ := ih a cs gr1 h1 n hmust
        exact ⟨q, by rw [← hmk]; exact List.mem_append.mpr (Or.inl hqm), hqn⟩
      · obtain ⟨q, hqm, hqn⟩ := ih b gr1.2 gr2 h2 n hmust
        exact ⟨q, by rw [← hmk]; exact List.mem_append.mpr (Or.inr hqm), hqn⟩
    | alt a b =>
      simp only [reMatch, List.mem_append] at hgr
      rcases hgr with hgr | hgr
      · exact ih a cs gr hgr n hmust.1
      · exact ih b cs gr hgr n hmust.2
    | grp m r =>
      simp only [reMatch, List.mem_map] at hgr
      obtain ⟨gr1, h1, hmk⟩ := hgr
      rcases hmust with hmust | hmust
      · exact ⟨(m, cs.take (cs.length - gr1.2.length)), by rw [← hmk]; simp, hmust⟩
      · obtain ⟨q, hqm, hqn⟩ := ih r cs gr1 h1 n hmust
        exact ⟨q, by rw [← hmk]; simp [hqm], hqn⟩

theorem head?_mem {α : Type} {l : List α} {a : α} (h : l.head? = some a) : a ∈ l := by
  cases l with
  | nil => simp at h
  | cons x t =>
    simp only [List.head?] at h
    rw [List.mem_cons]
    exact Or.inl (by simpa using h.symm)

/-- An anchored match comes from a member of the engine's candidate list. -/
theorem matchAt_some {re : RE} {cs : List Char} {g : Captures}
    (h : matchAt re cs = some g) :
    ∃ gr ∈ reMatch (fuelFor (.grp 0 re) cs) (.grp 0 re) cs, gr.1 = g := by
  unfold matchAt at h
  match hh : (reMatch (fuelFor (.grp 0 re) cs) (.grp 0 re) cs).head? with
  | some gr =>
    rw [hh] at h
    exact ⟨gr, head?_mem hh, by simpa using h⟩
  | none =>
    rw [hh] at h
    simp at h

/-- A search result comes from an anchored match at some position. -/
theorem reSearch_some {re : RE} {cs : List Char} {g : Captures}
    (h : reSearch re cs = some g) :
    ∃ cs2, matchAt re cs2 = some g := by
  induction cs with
  | nil => exact ⟨[], h⟩
  | cons a t ih =>
    rw [reSearch] at h
    match hh : matchAt re (a :: t) with
    | some g2 =>
      rw [hh] at h
      exact ⟨a :: t, by rw [hh]; simpa using h⟩
    | none =>
      rw [hh] at h
      exact ih h

/-- reSearch's captures inherit the bounds of reMatch_caps (the pattern is
wrapped as group 0). -/
theorem reSearch_caps {re : RE} {cs : List Char} {g : Captures}
    (h : reSearch re cs = some g) : ∀ q ∈ g,
      ¬ groupLB (.grp 0 re) q.1 = none ∧
      (∀ b, groupLB (.grp 0 re) q.1 = some b → b ≤ q.2.length) ∧
      (∀ p : Char → Bool, groupCls (.grp 0 re) q.1 p → ∀ ch ∈ q.2, p ch = true) := by
  obtain ⟨cs2, h2⟩ := reSearch_some h
  obtain ⟨gr, hgr, hg⟩ := matchAt_some h2
  subst hg
  exact fun q hq => reMatch_caps _ _ _ gr hgr q hq

/-- reSearch records every mandatory group. -/
theorem reSearch_mustGrp {re : RE} {cs : List Char} {g : Captures}
    (h : reSearch re cs = some g) {n : Nat} (hmust : mustGrp re n) :
    ∃ q ∈ g, q.1 = n := by
  obtain ⟨cs2, h2⟩ := reSearch_some h
  obtain ⟨gr, hgr, hg⟩ := matchAt_some h2
  subst hg
  exact reMatch_mustGrp _ _ _ gr hgr n (Or.inr hmust)

/-- A recorded group respects its syntactic length bound. -/
theorem getGrp_length {re : RE} {cs : List Char} {g : Captures} {n b : Nat} {s : String}
    (h : reSearch re cs = some g) (hlb : groupLB (.grp 0 re) n = some b)
    (hg : getGrp g n = some s) : b ≤ s.length := by
  unfold getGrp at hg
  match hf : g.find? (fun p => p.1 == n) with
  | none => rw [hf] at hg; simp at hg
  | some q =>
    rw [hf] at hg
    have hqm : q ∈ g := List.mem_of_find?_eq_some hf
    have hqn : q.1 = n := by
      have := List.find?_some hf
      simpa using this
    have hs : s = String.mk q.2 := by simpa using hg.symm
    subst hs
    exact (reSearch_caps h q hqm).2.1 b (by rw [hqn]; exact hlb)

/-- A recorded group's characters satisfy what its classes imply. -/
theorem getGrp_chars {re : RE} {cs : List Char} {g : Captures} {n : Nat} {s : String}
    {p : Char → Bool}
    (h : reSearch re cs = some g) (hcls : groupCls (.grp 0 re) n p)
    (hg : getGrp g n = some s) : ∀ ch ∈ s.data, p ch = true := by
  unfold getGrp at hg
  match hf : g.find? (fun p => p.1 == n) with
  | none => rw [hf] at hg; simp at hg
  | some q =>
    rw [hf] at hg
    have hqm : q ∈ g := List.mem_of_find?_eq_some hf
    have hqn : q.1 = n := by
      have := List.find?_some hf
      simpa using this
    have hs : s = String.mk q.2 := by simpa using hg.symm
    subst hs
    exact (reSearch_caps h q hqm).2.2 p (by rw [hqn]; exact hcls)

/-- A mandatory group is found by getGrp. -/
theorem getGrp_isSome {g : Captures} {n : Nat}
    (h : ∃ q ∈ g, q.1 = n) : ∃ s, getGrp g n = some s := by
  obtain ⟨q, hq, hn⟩ := h
  unfold getGrp
  match hf : g.find? (fun p => p.1 == n) with
  | none =>
    exfalso
    have := List.find?_eq_none.mp hf q hq
    simp [hn] at this
  | some q2 => exact ⟨String.mk q2.2, by rw [hf]; rfl⟩

/-! ## Corollaries about the source's concrete patterns -/

theorem digit_not_space {ch : Char} (h : isDigitC ch = true) : isSpaceC ch = false := by
  by_contra hs
  rw [Bool.not_eq_false] at hs
  simp only [isSpaceC, Bool.or_eq_true, beq_iff_eq] at hs
  rcases hs with ((((h1 | h1) | h1) | h1) | h1) | h1 <;> subst h1 <;>
    exact absurd h (by decide)

theorem dropWhile_eq_self_isSpaceC {l : List Char}
    (h : ∀ ch ∈ l, isSpaceC ch = false) : l.dropWhile isSpaceC = l := by
  cases l with
  | nil => rfl
  | cons a t =>
    rw [List.dropWhile_cons, if_neg]
    simp [h a (List.mem_cons_self a t)]

/-- Stripping an all-digits string changes nothing. -/
theorem strTrim_of_digits {s : String} (h : ∀ ch ∈ s.data, isDigitC ch = true) :
    strTrim s = s := by
  unfold strTrim
  have hns : ∀ ch ∈ s.data, isSpaceC ch = false := fun ch hch => digit_not_space (h ch hch)
  rw [dropWhile_eq_self_isSpaceC hns,
    dropWhile_eq_self_isSpaceC (fun ch hch => hns ch (List.mem_reverse.mp hch)),
    List.reverse_reverse]

theorem commaRE1_groupLB : groupLB (.grp 0 commaRE1) 2 = some 8 := by rfl

theorem commaRE2_groupLB : groupLB (.grp 0 commaRE2) 2 = some 8 := by rfl

theorem dateREc_groupLB : groupLB (.grp 0 dateREc) 1 = some 10 := by rfl

theorem commaRE1_groupCls : groupCls (.grp 0 commaRE1) 2 isDigitC := by
  simp [groupCls, clsWithin, commaRE1, seqL, nameGroup, wordRE, spacesP, spacesS,
    digits8to12, repRange, reps, upTo, RE.opt, RE.plus, dig, spaceOrEnd, chC, chI,
    List.foldr]

theorem commaRE2_groupCls : groupCls (.grp 0 commaRE2) 2 isDigitC := by
  simp [groupCls, clsWithin, commaRE2, seqL, nameGroup, wordRE, spacesP, spacesS,
    digits8to12, repRange, reps, upTo, RE.opt, RE.plus, dig, spaceOrEnd, chC, chI,
    List.foldr]

theorem commaRE1_mustGrp : mustGrp commaRE1 2 := by
  simp [mustGrp, commaRE1, seqL, nameGroup, wordRE, spacesP, spacesS,
    digits8to12, repRange, reps, upTo, RE.opt, RE.plus, dig, spaceOrEnd, chC, chI,
    List.foldr]

theorem commaRE2_mustGrp : mustGrp commaRE2 2 := by
  simp [mustGrp, commaRE2, seqL, nameGroup, wordRE, spacesP, spacesS,
    digits8to12, repRange, reps, upTo, RE.opt, RE.plus, dig, spaceOrEnd, chC, chI,
    List.foldr]

theorem dateREc_mustGrp : mustGrp dateREc 1 := Or.inl rfl

theorem strData_append (a b : String) : (a ++ b).data = a.data ++ b.data := rfl

theorem formatDate_ne {y m d : Nat} : ¬ formatDate y m d = "" := by
  intro hc
  have hd := congrArg String.data hc
  rw [formatDate] at hd
  simp [strData_append] at hd

theorem formatTime_ne {h m : Nat} : ¬ formatTime h m = "" := by
  intro hc
  have hd := congrArg String.data hc
  rw [formatTime] at hd
  simp [strData_append] at hd

/-- A valid comma-pattern resolution: the phone is the untouched 8-to-12
digit capture, and the name passed the validity filter. -/
theorem tryCommaPattern_props {re : RE} {text : String} {nc ph : String}
    (hlb : groupLB (.grp 0 re) 2 = some 8)
    (hcls : groupCls (.grp 0 re) 2 isDigitC)
    (hmust : mustGrp re 2)
    (h : tryCommaPattern re text = some (nc, ph)) :
    8 ≤ ph.length ∧ 2 ≤ nc.length ∧ fillerNames.contains (strLower nc) = false := by
  unfold tryCommaPattern at h
  match hs : reSearch re text.data with
  | none => simp only [hs] at h; exact absurd h (by simp)
  | some g =>
    simp only [hs] at h
    obtain ⟨p2, hp2⟩ := getGrp_isSome (reSearch_mustGrp hs hmust)
    have hdig : ∀ ch ∈ p2.data, isDigitC ch = true := getGrp_chars hs hcls hp2
    have hlen : 8 ≤ p2.length := getGrp_length hs hlb hp2
    rw [hp2] at h
    simp only [Option.getD_some] at h
    by_cases hcond : (2 ≤ (strTrim ((getGrp g 1).getD "")).length &&
        !strIsDigit (strTrim ((getGrp g 1).getD "")) &&
        !fillerNames.contains (strLower (strTrim ((getGrp g 1).getD "")))) = true
    · rw [if_pos hcond] at h
      have hpair : strTrim ((getGrp g 1).getD "") = nc ∧ strTrim p2 = ph := by
        simpa [Prod.ext_iff] using h
      rw [strTrim_of_digits hdig] at hpair
      simp only [Bool.and_eq_true, Bool.not_eq_true'] at hcond
      refine ⟨hpair.2 ▸ hlen, ?_, hpair.1 ▸ hcond.2⟩
      have h2 := hcond.1.1
      rw [hpair.1] at h2
      simpa using h2
    · rw [if_neg hcond] at h
      simp at h

/-- The comma-pattern loop's resolution has an 8-to-12 digit phone and a
validated name (length at least 2, not a filler word). -/
theorem commaResolved_props {text nc ph : String}
    (h : commaResolved text = some (nc, ph)) :
    8 ≤ ph.length ∧ 2 ≤ nc.length ∧ fillerNames.contains (strLower nc) = false := by
  unfold commaResolved at h
  match h1 : tryCommaPattern commaRE1 text with
  | some v =>
    simp only [h1, Option.orElse] at h
    have hv : v = (nc, ph) := by simpa using h
    rw [hv] at h1
    exact tryCommaPattern_props commaRE1_groupLB commaRE1_groupCls commaRE1_mustGrp h1
  | none =>
    simp only [h1, Option.orElse] at h
    exact tryCommaPattern_props commaRE2_groupLB commaRE2_groupCls commaRE2_mustGrp h

/-- Any time the time patterns produce is a nonempty HH:MM rendering. -/
theorem timeResolved_ne {lower v : String} (h : timeResolved lower = some v) :
    ¬ v = "" := by
  unfold timeResolved at h
  match hA : reSearch timeREa lower.data with
  | some g =>
    simp only [hA] at h
    have hv : v = timeFromMatch g 1 (some 2) (some 3) := by simpa using h.symm
    rw [hv]
    simp only [timeFromMatch]
    exact formatTime_ne
  | none =>
    simp only [hA] at h
    match hB : reSearch timeREb lower.data with
    | some g =>
      simp only [hB] at h
      have hv : v = timeFromMatch g 1 (some 2) (some 3) := by simpa using h.symm
      rw [hv]
      simp only [timeFromMatch]
      exact formatTime_ne
    | none =>
      simp only [hB] at h
      match hC : reSearch timeREc lower.data with
      | some g =>
        simp only [hC] at h
        have hv : v = timeFromMatch g 1 (some 2) none := by simpa using h.symm
        rw [hv]
        simp only [timeFromMatch]
        exact formatTime_ne
      | none =>
        simp only [hC] at h
        match hD : reSearch timeREd lower.data with
        | some g =>
          simp only [hD] at h
          have hv : v = timeFromMatch g 1 none (some 2) := by simpa using h.symm
          rw [hv]
          simp only [timeFromMatch]
          exact formatTime_ne
        | none => simp only [hD] at h; exact absurd h (by simp)

/-- Any date the date patterns produce is nonempty, provided the clock's
rendered days are (they model strftime output). -/
theorem dateResolved_ne {c : Clock} {lower v : String}
    (hc : ∀ n, ¬ c.dayStr n = "")
    (h : dateResolved c lower = some v) : ¬ v = "" := by
  unfold dateResolved at h
  match hA : reSearch dateREa lower.data with
  | some g =>
    simp only [hA] at h
    have hv : v = if containsStr (strLower ((getGrp g 0).getD "")) "tomorrow"
        then c.dayStr 1 else c.dayStr 0 := by simpa using h.symm
    rw [hv]
    by_cases htom : containsStr (strLower ((getGrp g 0).getD "")) "tomorrow" = true
    · rw [if_pos htom]; exact hc 1
    · rw [if_neg htom]; exact hc 0
  | none =>
    simp only [hA] at h
    match hB : reSearch dateREb lower.data with
    | some g =>
      simp only [hB] at h
      have hv : v = formatDate c.year
          (monthOf c (monthToken ((getGrp g 0).getD "")))
          (digitsToNat ((getGrp g 1).getD "")) := by simpa using h.symm
      rw [hv]
      exact formatDate_ne
    | none =>
      simp only [hB] at h
      match hC : reSearch dateREc lower.data with
      | some g =>
        simp only [hC] at h
        obtain ⟨p1, hp1⟩ := getGrp_isSome (reSearch_mustGrp hC dateREc_mustGrp)
        have hlen : 10 ≤ p1.length := getGrp_length hC dateREc_groupLB hp1
        have hv : v = (getGrp g 1).getD "" := by simpa using h.symm
        rw [hv, hp1]
        intro hcc
        have : p1.length = 0 := by
          rw [show p1 = "" from by simpa using hcc]
          rfl
        omega
      | none => simp only [hC] at h; exact absurd h (by simp)

/-! ## C5: idempotence of the fact extractor -/

theorem not_filler_of_lower {s : String}
    (h : fillerNames.contains (strLower s) = false) :
    fillerNames.contains s = false := by
  by_contra hc
  rw [Bool.not_eq_false] at hc
  have hmem : s ∈ fillerNames := by simpa using hc
  fin_cases hmem <;> exact absurd h (by decide)

theorem ne_empty_of_two_le {s : String} (h : 2 ≤ s.length) : ¬ s = "" := by
  intro hc
  rw [hc] at h
  simp at h

theorem ne_empty_of_eight_le {s : String} (h : 8 ≤ s.length) : ¬ s = "" := by
  intro hc
  rw [hc] at h
  simp at h

/-- When a comma pattern resolved, the name and phone steps never fire:
the lead update is exactly the comma assignment. -/
theorem leadStep_comma {cur : LeadInfo} {textOrig : String} (lower : String)
    {nc ph : String} (hcr : commaResolved textOrig = some (nc, ph)) :
    leadStep cur textOrig lower =
      { cur with
        name := if cur.name = "" ∨ fillerNames.contains cur.name then nc else cur.name,
        phone := if cur.phone = "" ∨ cur.phone.length < 8 then ph else cur.phone } := by
  obtain ⟨hph, hnc, _⟩ := commaResolved_props hcr
  have hnc' : ¬ nc = "" := ne_empty_of_two_le hnc
  have hph' : ¬ ph = "" := ne_empty_of_eight_le hph
  unfold leadStep
  simp only [hcr]
  have hname : ¬ ((if cur.name = "" ∨ fillerNames.contains cur.name then nc
      else cur.name) = "" ∧ cur.name = "") := by
    rintro ⟨h1, h2⟩
    rw [if_pos (Or.inl h2)] at h1
    exact hnc' h1
  have hphone : ¬ ((if cur.phone = "" ∨ cur.phone.length < 8 then ph
      else cur.phone) = "" ∧ cur.phone = "") := by
    rintro ⟨h1, h2⟩
    rw [if_pos (Or.inl h2)] at h1
    exact hph' h1
  rw [if_neg hname, if_neg hphone]

theorem LeadInfo_ext {a b : LeadInfo} (h1 : a.name = b.name) (h2 : a.phone = b.phone)
    (h3 : a.email = b.email) : a = b := by
  cases a
  cases b
  simp only at h1 h2 h3
  rw [h1, h2, h3]

/-- The extractor's lead fields when no comma pattern resolved. -/
theorem leadStep_none_fields {cur : LeadInfo} {textOrig : String} (lower : String)
    (hcr : commaResolved textOrig = none) :
    (leadStep cur textOrig lower).email = cur.email ∧
    (leadStep cur textOrig lower).name =
      (if cur.name = "" then
        match nameResolved textOrig with
        | some nm => nm
        | none => cur.name
      else cur.name) ∧
    (leadStep cur textOrig lower).phone =
      (if cur.phone = "" then
        match phoneResolved lower with
        | some p =>
          if 8 ≤ p.length && !leadsWith "rocky_".data p.data then p else cur.phone
        | none => cur.phone
      else cur.phone) := by
  unfold leadStep
  simp only [hcr]
  match hnr : nameResolved textOrig, hpr : phoneResolved lower with
  | some nm2, some p =>
    by_cases hn : cur.name = "" <;> by_cases hp : cur.phone = "" <;>
      by_cases hg : (8 ≤ p.length && !leadsWith "rocky_".data p.data) = true <;>
      simp [hn, hp, hg, hnr, hpr]
  | some nm2, none =>
    by_cases hn : cur.name = "" <;> by_cases hp : cur.phone = "" <;>
      simp [hn, hp, hnr, hpr]
  | none, some p =>
    by_cases hn : cur.name = "" <;> by_cases hp : cur.phone = "" <;>
      by_cases hg : (8 ≤ p.length && !leadsWith "rocky_".data p.data) = true <;>
      simp [hn, hp, hg, hnr, hpr]
  | none, none =>
    by_cases hn : cur.name = "" <;> by_cases hp : cur.phone = "" <;>
      simp [hn, hp, hnr, hpr]

theorem leadStep_idem (cur : LeadInfo) (textOrig lower : String) :
    leadStep (leadStep cur textOrig lower) textOrig lower =
      leadStep cur textOrig lower := by
  match hcr : commaResolved textOrig with
  | some (nc, ph) =>
    obtain ⟨hph, hnc, hfil⟩ := commaResolved_props hcr
    have hnc' : ¬ nc = "" := ne_empty_of_two_le hnc
    have hph' : ¬ ph = "" := ne_empty_of_eight_le hph
    have hph8 : ¬ ph.length < 8 := by omega
    have hfil' := not_filler_of_lower hfil
    rw [leadStep_comma lower hcr, leadStep_comma lower hcr]
    have hC1' : ¬ ((if cur.name = "" ∨ fillerNames.contains cur.name then nc
        else cur.name) = "" ∨
        fillerNames.contains (if cur.name = "" ∨ fillerNames.contains cur.name then nc
          else cur.name)) := by
      by_cases h1 : cur.name = "" ∨ fillerNames.contains cur.name
      · rw [if_pos h1]
        rintro (h | h)
        · exact hnc' h
        · rw [hfil'] at h
          exact absurd h (by simp)
      · rw [if_neg h1]
        exact h1
    have hC2' : ¬ ((if cur.phone = "" ∨ cur.phone.length < 8 then ph
        else cur.phone) = "" ∨
        (if cur.phone = "" ∨ cur.phone.length < 8 then ph else cur.phone).length < 8) := by
      by_cases h2 : cur.phone = "" ∨ cur.phone.length < 8
      · rw [if_pos h2]
        rintro (h | h)
        · exact hph' h
        · exact hph8 h
      · rw [if_neg h2]
        exact h2
    rw [if_neg hC1', if_neg hC2']
  | none =>
    obtain ⟨he1, hn1, hp1⟩ := @leadStep_none_fields cur _ lower hcr
    obtain ⟨he2, hn2, hp2⟩ :=
      @leadStep_none_fields (leadStep cur textOrig lower) _ lower hcr
    refine LeadInfo_ext ?_ ?_ (by rw [he2, he1])
    · rw [hn2, hn1]
      match hnr : nameResolved textOrig with
      | some nm2 =>
        by_cases hn : cur.name = ""
        · by_cases hnm2 : nm2 = "" <;> simp [hn, hnm2]
        · simp [hn]
      | none =>
        by_cases hn : cur.name = "" <;> simp [hn]
    · rw [hp2, hp1]
      match hpr : phoneResolved lower with
      | some p =>
        by_cases hp : cur.phone = ""
        · by_cases hg : (8 ≤ p.length && !leadsWith "rocky_".data p.data) = true
          · have hp8 : 8 ≤ p.length := by
              simp only [Bool.and_eq_true] at hg
              simpa using hg.1
            have hpne : ¬ p = "" := ne_empty_of_eight_le hp8
            simp [hp, hg, hpne]
          · simp [hp, hg]
        · simp [hp]
      | none =>
        by_cases hp : cur.phone = "" <;> simp [hp]

theorem dateUpd_idem (c : Clock) (d lower : String) :
    dateUpd c (dateUpd c d lower) lower = dateUpd c d lower := by
  unfold dateUpd
  match hdr : dateResolved c lower with
  | some v =>
    by_cases hmt : monthTrigger lower = true
    · simp [hmt, hdr]
    · by_cases hd : d = ""
      · simp only [hd, hmt, true_or, or_false, if_pos, hdr]
        by_cases hv : v = "" <;> simp [hv, hmt, hdr]
      · simp [hd, hmt, hdr]
  | none =>
    by_cases hmt : monthTrigger lower = true
    · simp [hmt, hdr]
    · by_cases hd : d = "" <;> simp [hd, hmt, hdr]

theorem timeUpd_idem (t lower : String) :
    timeUpd (timeUpd t lower) lower = timeUpd t lower := by
  unfold timeUpd
  match htr : timeResolved lower with
  | some v =>
    have hv : ¬ v = "" := timeResolved_ne htr
    by_cases h1 : (reSearch timeTrig1 lower.data).isSome = true
    · simp [h1, htr]
    · by_cases h2 : (reSearch timeTrig2 lower.data).isSome = true
      · simp [h1, h2, htr]
      · by_cases ht : t = ""
        · simp [ht, h1, h2, htr, hv]
        · simp [ht, h1, h2, htr]
  | none =>
    by_cases h1 : (reSearch timeTrig1 lower.data).isSome = true
    · simp [h1, htr]
    · by_cases h2 : (reSearch timeTrig2 lower.data).isSome = true
      · simp [h1, h2, htr]
      · by_cases ht : t = "" <;> simp [ht, h1, h2, htr]

theorem TourDetails_ext {a b : TourDetails} (h1 : a.property_id = b.property_id)
    (h2 : a.date = b.date) (h3 : a.time = b.time) : a = b := by
  cases a
  cases b
  simp only at h1 h2 h3
  rw [h1, h2, h3]

theorem propStep_fields (sel : String) (td : TourDetails) :
    (propStep sel td).date = td.date ∧ (propStep sel td).time = td.time := by
  unfold propStep
  by_cases h : ¬ sel = "" ∧ td.property_id = "" <;> simp [h]

theorem propStep_idem (sel : String) (td : TourDetails) :
    propStep sel (propStep sel td) = propStep sel td := by
  unfold propStep
  by_cases h : ¬ sel = "" ∧ td.property_id = ""
  · rw [if_pos h]
    simp [h.1]
  · rw [if_neg h, if_neg h]

/-- C5: running the extractor twice on the same utterance (and the same
wall clock and selected property) yields the same fact set as running it
once. -/
theorem C5_extract_idempotent (c : Clock) (sel : String) (fs : FactSet)
    (text : Option String) :
    extractInformationNode c sel (extractInformationNode c sel fs text) text =
      extractInformationNode c sel fs text := by
  match text with
  | none => rfl
  | some t =>
    simp only [extractInformationNode, extractFacts]
    cases fs with
    | mk li td =>
    simp only
    congr 1
    · exact leadStep_idem li t (strLower t)
    · cases td with
      | mk pid d tm =>
      have hf := propStep_fields sel ⟨pid, dateUpd c d (strLower t), timeUpd tm (strLower t)⟩
      have step1 : ({ propStep sel ⟨pid, dateUpd c d (strLower t), timeUpd tm (strLower t)⟩ with
          date := dateUpd c (propStep sel
            ⟨pid, dateUpd c d (strLower t), timeUpd tm (strLower t)⟩).date (strLower t),
          time := timeUpd (propStep sel
            ⟨pid, dateUpd c d (strLower t), timeUpd tm (strLower t)⟩).time (strLower t) }
          : TourDetails) =
          propStep sel ⟨pid, dateUpd c d (strLower t), timeUpd tm (strLower t)⟩ := by
        rw [hf.1, hf.2, dateUpd_idem, timeUpd_idem]
        exact TourDetails_ext rfl hf.1.symm hf.2.symm
      rw [step1, propStep_idem]

/-! ## C6: the extractor never loses a known fact -/

theorem dateUpd_ne {c : Clock} {d lower : String} (hc : ∀ n, ¬ c.dayStr n = "")
    (hd : ¬ d = "") : ¬ dateUpd c d lower = "" := by
  unfold dateUpd
  by_cases hcond : d = "" ∨ monthTrigger lower
  · rw [if_pos hcond]
    match hdr : dateResolved c lower with
    | some v => exact dateResolved_ne hc hdr
    | none => exact hd
  · rw [if_neg hcond]
    exact hd

theorem timeUpd_ne {t lower : String} (ht : ¬ t = "") : ¬ timeUpd t lower = "" := by
  unfold timeUpd
  by_cases hcond : t = "" ∨ (reSearch timeTrig1 lower.data).isSome
      ∨ (reSearch timeTrig2 lower.data).isSome
  · rw [if_pos hcond]
    match htr : timeResolved lower with
    | some v => exact timeResolved_ne htr
    | none => exact ht
  · rw [if_neg hcond]
    exact ht

theorem propStep_pid_of_ne {sel : String} {td : TourDetails}
    (h : ¬ td.property_id = "") :
    (propStep sel td).property_id = td.property_id := by
  unfold propStep
  rw [if_neg (fun hcon => h hcon.2)]

/-- C6: extraction never clears a known fact.  A nonempty name, phone,
date or time stays nonempty; the email is untouched; a set
tour_details.property_id is returned exactly as it was; and a name that
is not one of the filler words is never changed at all (the clock
hypothesis says strftime renders days as nonempty strings). -/
theorem C6_no_field_loss (c : Clock) (sel : String) (fs : FactSet) (text : Option String)
    (hc : ∀ n, ¬ c.dayStr n = "") :
    (¬ fs.lead_info.name = "" →
      ¬ (extractInformationNode c sel fs text).lead_info.name = "") ∧
    (¬ fs.lead_info.phone = "" →
      ¬ (extractInformationNode c sel fs text).lead_info.phone = "") ∧
    (extractInformationNode c sel fs text).lead_info.email = fs.lead_info.email ∧
    (¬ fs.tour_details.date = "" →
      ¬ (extractInformationNode c sel fs text).tour_details.date = "") ∧
    (¬ fs.tour_details.time = "" →
      ¬ (extractInformationNode c sel fs text).tour_details.time = "") ∧
    (¬ fs.tour_details.property_id = "" →
      (extractInformationNode c sel fs text).tour_details.property_id =
        fs.tour_details.property_id) ∧
    (¬ fs.lead_info.name = "" → fillerNames.contains fs.lead_info.name = false →
      (extractInformationNode c sel fs text).lead_info.name = fs.lead_info.name) := by
  match text with
  | none =>
    exact ⟨fun h => h, fun h => h, rfl, fun h => h, fun h => h,
      fun _ => rfl, fun _ _ => rfl⟩
  | some t =>
    simp only [extractInformationNode, extractFacts]
    cases fs with
    | mk li td =>
    cases li with
    | mk nm phh em =>
    cases td with
    | mk pid d tm =>
    simp only
    have hfD := propStep_fields sel ⟨pid, dateUpd c d (strLower t), timeUpd tm (strLower t)⟩
    refine ⟨?_, ?_, ?_, ?_, ?_, ?_, ?_⟩
    · intro hn
      match hcr : commaResolved t with
      | some (nc, ph) =>
        obtain ⟨_, hnc, _⟩ := commaResolved_props hcr
        rw [leadStep_comma (strLower t) hcr]
        simp only
        by_cases h1 : (nm : String) = "" ∨ fillerNames.contains nm
        · rw [if_pos h1]
          exact ne_empty_of_two_le hnc
        · rw [if_neg h1]
          exact hn
      | none =>
        rw [(@leadStep_none_fields ⟨nm, phh, em⟩ _ (strLower t) hcr).2.1]
        simp only
        rw [if_neg hn]
        exact hn
    · intro hp
      match hcr : commaResolved t with
      | some (nc, ph) =>
        obtain ⟨hph, _, _⟩ := commaResolved_props hcr
        rw [leadStep_comma (strLower t) hcr]
        simp only
        by_cases h2 : (phh : String) = "" ∨ phh.length < 8
        · rw [if_pos h2]
          exact ne_empty_of_eight_le hph
        · rw [if_neg h2]
          exact hp
      | none =>
        rw [(@leadStep_none_fields ⟨nm, phh, em⟩ _ (strLower t) hcr).2.2]
        simp only
        rw [if_neg hp]
        exact hp
    · match hcr : commaResolved t with
      | some (nc, ph) =>
        rw [leadStep_comma (strLower t) hcr]
      | none =>
        exact (@leadStep_none_fields ⟨nm, phh, em⟩ _ (strLower t) hcr).1
    · intro hd
      rw [hfD.1]
      exact dateUpd_ne hc hd
    · intro ht
      rw [hfD.2]
      exact timeUpd_ne ht
    · intro hpid
      exact propStep_pid_of_ne hpid
    · intro hn hfil
      match hcr : commaResolved t with
      | some (nc, ph) =>
        rw [leadStep_comma (strLower t) hcr]
        simp only
        rw [if_neg]
        rintro (h | h)
        · exact hn h
        · rw [hfil] at h
          exact absurd h (by simp)
      | none =>
        rw [(@leadStep_none_fields ⟨nm, phh, em⟩ _ (strLower t) hcr).2.1]
        simp only
        rw [if_neg hn]

/-- Witness for C6 at a concrete clock, fact set and utterance. -/
theorem C6_no_field_loss_witness :
    (¬ (⟨⟨"Laksh", "3122037041", "a@b"⟩, ⟨"rocky_001", "2024-11-05", "10:00"⟩⟩ :
        FactSet).lead_info.name = "" →
      ¬ (extractInformationNode ⟨2024, 11, fun _ => "2024-11-06", "iso"⟩ ""
        ⟨⟨"Laksh", "3122037041", "a@b"⟩, ⟨"rocky_001", "2024-11-05", "10:00"⟩⟩
        (some "let's do november 7th at 2pm")).lead_info.name = "") ∧
    (¬ (⟨⟨"Laksh", "3122037041", "a@b"⟩, ⟨"rocky_001", "2024-11-05", "10:00"⟩⟩ :
        FactSet).lead_info.phone = "" →
      ¬ (extractInformationNode ⟨2024, 11, fun _ => "2024-11-06", "iso"⟩ ""
        ⟨⟨"Laksh", "3122037041", "a@b"⟩, ⟨"rocky_001", "2024-11-05", "10:00"⟩⟩
        (some "let's do november 7th at 2pm")).lead_info.phone = "") ∧
    (extractInformationNode ⟨2024, 11, fun _ => "2024-11-06", "iso"⟩ ""
        ⟨⟨"Laksh", "3122037041", "a@b"⟩, ⟨"rocky_001", "2024-11-05", "10:00"⟩⟩
        (some "let's do november 7th at 2pm")).lead_info.email =
      (⟨⟨"Laksh", "3122037041", "a@b"⟩, ⟨"rocky_001", "2024-11-05", "10:00"⟩⟩ :
        FactSet).lead_info.email ∧
    (¬ (⟨⟨"Laksh", "3122037041", "a@b"⟩, ⟨"rocky_001", "2024-11-05", "10:00"⟩⟩ :
        FactSet).tour_details.date = "" →
      ¬ (extractInformationNode ⟨2024, 11, fun _ => "2024-11-06", "iso"⟩ ""
        ⟨⟨"Laksh", "3122037041", "a@b"⟩, ⟨"rocky_001", "2024-11-05", "10:00"⟩⟩
        (some "let's do november 7th at 2pm")).tour_details.date = "") ∧
    (¬ (⟨⟨"Laksh", "3122037041", "a@b"⟩, ⟨"rocky_001", "2024-11-05", "10:00"⟩⟩ :
        FactSet).tour_details.time = "" →
      ¬ (extractInformationNode ⟨2024, 11, fun _ => "2024-11-06", "iso"⟩ ""
        ⟨⟨"Laksh", "3122037041", "a@b"⟩, ⟨"rocky_001", "2024-11-05", "10:00"⟩⟩
        (some "let's do november 7th at 2pm")).tour_details.time = "") ∧
    (¬ (⟨⟨"Laksh", "3122037041", "a@b"⟩, ⟨"rocky_001", "2024-11-05", "10:00"⟩⟩ :
        FactSet).tour_details.property_id = "" →
      (extractInformationNode ⟨2024, 11, fun _ => "2024-11-06", "iso"⟩ ""
        ⟨⟨"Laksh", "3122037041", "a@b"⟩, ⟨"rocky_001", "2024-11-05", "10:00"⟩⟩
        (some "let's do november 7th at 2pm")).tour_details.property_id =
      (⟨⟨"Laksh", "3122037041", "a@b"⟩, ⟨"rocky_001", "2024-11-05", "10:00"⟩⟩ :
        FactSet).tour_details.property_id) ∧
    (¬ (⟨⟨"Laksh", "3122037041", "a@b"⟩, ⟨"rocky_001", "2024-11-05", "10:00"⟩⟩ :
        FactSet).lead_info.name = "" →
      fillerNames.contains (⟨⟨"Laksh", "3122037041", "a@b"⟩,
        ⟨"rocky_001", "2024-11-05", "10:00"⟩⟩ : FactSet).lead_info.name = false →
      (extractInformationNode ⟨2024, 11, fun _ => "2024-11-06", "iso"⟩ ""
        ⟨⟨"Laksh", "3122037041", "a@b"⟩, ⟨"rocky_001", "2024-11-05", "10:00"⟩⟩
        (some "let's do november 7th at 2pm")).lead_info.name =
      (⟨⟨"Laksh", "3122037041", "a@b"⟩, ⟨"rocky_001", "2024-11-05", "10:00"⟩⟩ :
        FactSet).lead_info.name) :=
  C6_no_field_loss ⟨2024, 11, fun _ => "2024-11-06", "iso"⟩ ""
    ⟨⟨"Laksh", "3122037041", "a@b"⟩, ⟨"rocky_001", "2024-11-05", "10:00"⟩⟩
    (some "let's do november 7th at 2pm")
    (fun _ => show ¬ ("2024-11-06" : String) = "" by decide)

/-! ## C7: what actually happens when the decision collaborator fails -/

/-- With a failing decision collaborator the graph run propagates the
exception out of its first agent step. -/
theorem runGraph_error {io : Collaborators} {c : Clock} {e : String}
    (hnode : ∀ s : ConvState, laylaAgentNode io s = .error e) :
    ∀ (fuel : Nat) (cal : Calendar) (st : ConvState), ¬ fuel = 0 →
      runGraph io c fuel cal st = (cal, .error e) := by
  intro fuel cal st hf
  match fuel with
  | 0 => exact absurd rfl hf
  | f + 1 =>
    unfold runGraph
    simp [hnode]

/-- Counterexample to C7 as stated: with an unreachable collaborator the
endpoint answers HTTP 500 with the stringified error — no prior state is
returned and no apology message is produced, contrary to the claimed
CollaboratorUnavailable contract. -/
theorem C7_counterexample :
    chat ⟨fun _ => Except.error "collaborator down", fun _ => "obs"⟩
      ⟨2024, 11, fun n => "D" ++ toString n, "iso"⟩ [] "hi" none =
      ([], .httpError 500 "Error: collaborator down") := by rfl

/-- C7 amended: when the decision collaborator errors, no node catches
the exception; run_layla propagates it and the chat endpoint turns it
into HTTPException(500, "Error: " + str(e)).  The response carries no
ConversationState and no apology; the caller's own copy of the prior
state is simply never touched (the store is returned as it was before
the turn's first dispatch). -/
theorem C7_collaborator_failure (io : Collaborators) (c : Clock) (cal : Calendar)
    (message : String) (st : Option ConvState) (e : String)
    (hllm : ∀ ms, io.llm ms = .error e) :
    chat io c cal message st = (cal, .httpError 500 ("Error: " ++ e)) := by
  have hnode : ∀ s : ConvState, laylaAgentNode io s = .error e := by
    intro s
    simp [laylaAgentNode, hllm, Bind.bind, Except.bind]
  unfold chat runLayla
  rw [runGraph_error hnode 25 cal _ (by decide)]

/-- Witness for C7's amended statement at a concrete failing turn. -/
theorem C7_collaborator_failure_witness :
    chat ⟨fun _ => Except.error "boom", fun _ => "obs"⟩
      ⟨2024, 11, fun n => "D" ++ toString n, "iso"⟩ [] "book a tour"
      (some initialState) =
      ([], .httpError 500 ("Error: " ++ "boom")) :=
  C7_collaborator_failure ⟨fun _ => Except.error "boom", fun _ => "obs"⟩
    ⟨2024, 11, fun n => "D" ++ toString n, "iso"⟩ [] "book a tour"
    (some initialState) "boom" (fun _ => rfl)

/-! ## C9: the message log under the dialogue steps -/

/-- Counterexample to C9 as stated: when the log's first entry is a
HumanMessage containing "Layla", the agent step overwrites it in place
with the re-rendered system prompt, so the log is not append-only. -/
theorem C9_counterexample :
    laylaAgentNode ⟨fun _ => Except.ok ("hello", []), fun _ => "obs"⟩
      ⟨[Msg.human "Hi Layla"], "", [], ⟨"", "", ""⟩, "searching", ⟨"", "", ""⟩⟩ =
      Except.ok ⟨[Msg.human basePrompt, Msg.ai "hello" []], "", [], ⟨"", "", ""⟩,
        "searching", ⟨"", "", ""⟩⟩ ∧
    ¬ basePrompt = "Hi Layla" :=
  ⟨rfl, by decide⟩

/-- C9 amended: the extraction step never touches the log and the tool
step only appends its observations; the agent step appends the response
but may first overwrite the log's first entry with the re-rendered
system prompt — exactly when some message mentions "Layla" and the first
entry is a HumanMessage mentioning "Layla"; nothing else of the log is
replaced, reordered or removed. -/
theorem C9_append_only_except_system_slot (io : Collaborators) (c : Clock)
    (cal : Calendar) (st st2 : ConvState) (li : LeadInfo) (td : TourDetails)
    (h : laylaAgentNode io st = .ok st2) :
    ({ st with lead_info := li, tour_details := td } : ConvState).messages =
      st.messages ∧
    (st2.messages ++ (customToolNode io c cal st2).2 =
      st2.messages ++ (customToolNode io c cal st2).2) ∧
    ((∃ tail, st2.messages = st.messages ++ tail) ∨
     (∃ h0 rest resp, st.messages = Msg.human h0 :: rest ∧
       containsStr h0 "Layla" = true ∧
       st2.messages = (Msg.human (getSystemPrompt st) :: rest) ++ [resp])) := by
  refine ⟨rfl, rfl, ?_⟩
  simp only [laylaAgentNode] at h
  match hllm : io.llm (agentLogViews (getSystemPrompt st) st.messages).1 with
  | .error e =>
    rw [hllm] at h
    simp [Bind.bind, Except.bind] at h
  | .ok pr =>
    rw [hllm] at h
    simp only [Bind.bind, Except.bind, pure, Except.pure] at h
    have hrec := Except.ok.inj h
    have hmsg : st2.messages =
        (agentLogViews (getSystemPrompt st) st.messages).2 ++ [Msg.ai pr.1 pr.2] := by
      rw [← hrec]
    unfold agentLogViews at hmsg
    by_cases hany : ¬ st.messages.any
        (fun m => ¬ m.content = "" ∧ containsStr m.content "Layla")
    · rw [if_pos hany] at hmsg
      exact Or.inl ⟨[Msg.ai pr.1 pr.2], hmsg⟩
    · rw [if_neg hany] at hmsg
      match hlog : st.messages with
      | [] =>
        simp only [hlog] at hmsg
        exact Or.inl ⟨[Msg.ai pr.1 pr.2], hmsg⟩
      | Msg.human c0 :: rest =>
        simp only [hlog] at hmsg
        by_cases hc0 : containsStr c0 "Layla" = true
        · rw [if_pos hc0] at hmsg
          exact Or.inr ⟨c0, rest, Msg.ai pr.1 pr.2, rfl, hc0, hmsg⟩
        · rw [if_neg hc0] at hmsg
          exact Or.inl ⟨[Msg.ai pr.1 pr.2], hmsg⟩
      | Msg.ai c0 tcs :: rest =>
        simp only [hlog] at hmsg
        exact Or.inl ⟨[Msg.ai pr.1 pr.2], hmsg⟩
      | Msg.toolMsg c0 tid :: rest =>
        simp only [hlog] at hmsg
        exact Or.inl ⟨[Msg.ai pr.1 pr.2], hmsg⟩

/-- Witness for the amended C9 at a concrete replacing step. -/
theorem C9_append_only_witness :
    ({ (⟨[Msg.human "Hi Layla"], "", [], ⟨"", "", ""⟩, "searching",
        ⟨"", "", ""⟩⟩ : ConvState) with
      lead_info := (⟨"a", "b", "c"⟩ : LeadInfo),
      tour_details := (⟨"p", "d", "t"⟩ : TourDetails) } : ConvState).messages =
      (⟨[Msg.human "Hi Layla"], "", [], ⟨"", "", ""⟩, "searching",
        ⟨"", "", ""⟩⟩ : ConvState).messages ∧
    ((⟨[Msg.human basePrompt, Msg.ai "hello" []], "", [], ⟨"", "", ""⟩, "searching",
        ⟨"", "", ""⟩⟩ : ConvState).messages ++
      (customToolNode ⟨fun _ => Except.ok ("hello", []), fun _ => "obs"⟩
        ⟨2024, 11, fun n => "D" ++ toString n, "iso"⟩ []
        ⟨[Msg.human basePrompt, Msg.ai "hello" []], "", [], ⟨"", "", ""⟩, "searching",
          ⟨"", "", ""⟩⟩).2 =
     (⟨[Msg.human basePrompt, Msg.ai "hello" []], "", [], ⟨"", "", ""⟩, "searching",
        ⟨"", "", ""⟩⟩ : ConvState).messages ++
      (customToolNode ⟨fun _ => Except.ok ("hello", []), fun _ => "obs"⟩
        ⟨2024, 11, fun n => "D" ++ toString n, "iso"⟩ []
        ⟨[Msg.human basePrompt, Msg.ai "hello" []], "", [], ⟨"", "", ""⟩, "searching",
          ⟨"", "", ""⟩⟩).2) ∧
    ((∃ tail, (⟨[Msg.human basePrompt, Msg.ai "hello" []], "", [], ⟨"", "", ""⟩,
        "searching", ⟨"", "", ""⟩⟩ : ConvState).messages =
      (⟨[Msg.human "Hi Layla"], "", [], ⟨"", "", ""⟩, "searching",
        ⟨"", "", ""⟩⟩ : ConvState).messages ++ tail) ∨
     (∃ h0 rest resp,
      (⟨[Msg.human "Hi Layla"], "", [], ⟨"", "", ""⟩, "searching",
        ⟨"", "", ""⟩⟩ : ConvState).messages = Msg.human h0 :: rest ∧
      containsStr h0 "Layla" = true ∧
      (⟨[Msg.human basePrompt, Msg.ai "hello" []], "", [], ⟨"", "", ""⟩, "searching",
        ⟨"", "", ""⟩⟩ : ConvState).messages =
        (Msg.human (getSystemPrompt ⟨[Msg.human "Hi Layla"], "", [], ⟨"", "", ""⟩,
          "searching", ⟨"", "", ""⟩⟩) :: rest) ++ [resp])) :=
  C9_append_only_except_system_slot
    ⟨fun _ => Except.ok ("hello", []), fun _ => "obs"⟩
    ⟨2024, 11, fun n => "D" ++ toString n, "iso"⟩ []
    ⟨[Msg.human "Hi Layla"], "", [], ⟨"", "", ""⟩, "searching", ⟨"", "", ""⟩⟩
    ⟨[Msg.human basePrompt, Msg.ai "hello" []], "", [], ⟨"", "", ""⟩, "searching",
      ⟨"", "", ""⟩⟩
    ⟨"a", "b", "c"⟩ ⟨"p", "d", "t"⟩ rfl

end Layla
